import Mathlib

/-!
# Verification of the dynorm data-mapping engine (src/index.js)

A shallow embedding of the schema-driven data mapper in `src/index.js`:
JavaScript values become the inductive `JsVal`, objects become association
lists in insertion order, and each function of the source is translated into
an executable Lean definition.  External collaborators (the DynamoDB store
client, the Ajv validation engine, the JavaScript runtime's `JSON` builtins)
are modelled at their interface boundary, following the specification's §6.
-/

set_option autoImplicit false

namespace Dynorm

/-- A JavaScript value as used by the library: `undef` is the JS value
`undefined`, `date` is a `Date` instance carrying its epoch milliseconds,
`obj` is a plain object as an insertion-ordered association list, and
`mobj` is a `Model` instance wrapping its `_data` attribute map (property
accessors reflect directly into `_data`, see `NewModel.constructor`).
`nan` stands for the number `NaN`. -/
inductive JsVal where
  | undef
  | null
  | nan
  | bool (b : Bool)
  | num (n : Int)
  | str (s : String)
  | date (ms : Int)
  | obj (fields : List (String × JsVal))
  | mobj (fields : List (String × JsVal))
deriving Repr

/-- A JavaScript object in insertion order. -/
abbrev Obj := List (String × JsVal)

mutual


/-- Structural value comparison, used to model the store's equality
semantics (DynamoDB attribute equality in condition and key-condition
expressions). -/
def JsVal.beq : JsVal → JsVal → Bool
  | .undef, .undef => true
  | .null, .null => true
  | .nan, .nan => true
  | .bool a, .bool b => a == b
  | .num a, .num b => a == b
  | .str a, .str b => a == b
  | .date a, .date b => a == b
  | .obj a, .obj b => JsVal.beqFields a b
  | .mobj a, .mobj b => JsVal.beqFields a b
  | _, _ => false

/-- Field-by-field comparison of two objects. -/
def JsVal.beqFields : List (String × JsVal) → List (String × JsVal) → Bool
  | [], [] => true
  | (k1, v1) :: r1, (k2, v2) :: r2 =>
    k1 == k2 && JsVal.beq v1 v2 && JsVal.beqFields r1 r2
  | _, _ => false

end

instance : BEq JsVal := ⟨JsVal.beq⟩

namespace Obj

/-- Property read `o[k]`: the JS value, `undefined` when the key is absent. -/
def get : Obj → String → JsVal
  | [], _ => .undef
  | (k', v) :: rest, k => if k' = k then v else get rest k

/-- Property assignment `o[k] = v`: replaces the existing entry in place,
otherwise appends (JS insertion-order semantics, keys unique). -/
def set : Obj → String → JsVal → Obj
  | [], k, v => [(k, v)]
  | (k', v') :: rest, k, v =>
    if k' = k then (k', v) :: rest else (k', v') :: set rest k v

/-- `delete o[k]`: removes the entry (keys are unique in a JS object). -/
def del : Obj → String → Obj
  | [], _ => []
  | (k', v) :: rest, k => if k' = k then rest else (k', v) :: del rest k

/-- `Object.keys(o)` in insertion order. -/
def keys (o : Obj) : List String := o.map (·.1)

end Obj

/-- JavaScript truthiness of a value (`if (v)`).  `NaN`, `undefined`,
`null`, `false`, `0` and the empty string are falsy; objects, `Model`
instances and `Date` instances are always truthy. -/
def truthy : JsVal → Bool
  | .undef => false
  | .null => false
  | .nan => false
  | .bool b => b
  | .num n => n != 0
  | .str s => s != ""
  | .date _ => true
  | .obj _ => true
  | .mobj _ => true

/-- The failures the library can surface.  The source has a single error
class `DynormError`; `dynorm` carries its string message and `validation`
stands for `DynormError(validate.errors)` whose payload is the external
validator's error list.  `typeError` is an untyped JavaScript runtime
`TypeError` (the code running off a missing value), `plainError` is a bare
`new Error(msg)`, `conditionalCheckFailed` is the store-reported
conditional-write failure, and `schemaNotFound` is the specification
taxonomy's `SchemaNotFoundError` — which the source never constructs. -/
inductive DynError where
  | dynorm (msg : String)
  | validation
  | typeError (msg : String)
  | plainError (msg : String)
  | conditionalCheckFailed
  | schemaNotFound
deriving Repr, DecidableEq

/-- Property read `v[f]` on an arbitrary JS value: a `TypeError` on
`undefined`/`null`, a lookup into the attribute map for plain objects and
for `Model` instances (whose generated accessors reflect into `_data`),
and `undefined` on remaining primitives (no library-declared field name
collides with a built-in primitive property). -/
def JsVal.getMember : JsVal → String → Except DynError JsVal
  | .undef, f =>
    .error (.typeError ("Cannot read properties of undefined (reading " ++ f ++ ")"))
  | .null, f =>
    .error (.typeError ("Cannot read properties of null (reading " ++ f ++ ")"))
  | .obj fs, f => .ok (Obj.get fs f)
  | .mobj fs, f => .ok (Obj.get fs f)
  | _, _ => .ok JsVal.undef

/-! ## Dates and the ISO-8601 regex

`reISO = /^(\d{4})-(\d{2})-(\d{2})T(\d{2}):(\d{2}):(\d{2}(?:\.\d*))(?:Z|(\+|-)([\d|:]*))?$/`
(src/index.js line 5).  Note the fractional part is *not* optional in the
source regex (the group `(?:\.\d*)` carries no `?`), and the timezone
offset character class `[\d|:]*` literally admits `|`.  The calendar
arithmetic below models the JavaScript runtime's `Date` (epoch
milliseconds, proleptic Gregorian, host timezone taken as UTC). -/

/-- Digits of a decimal numeral to its value. -/
def digitsToInt (cs : List Char) : Int :=
  cs.foldl (fun a c => a * 10 + ((c.toNat : Int) - 48)) 0

/-- Take exactly `n` decimal digits off the front of a character list. -/
def peelDigits : Nat → List Char → Option (List Char × List Char)
  | 0, cs => some ([], cs)
  | n + 1, c :: cs =>
    if c.isDigit then (peelDigits n cs).map (fun p => (c :: p.1, p.2)) else none
  | _ + 1, [] => none

/-- Take one expected literal character off the front. -/
def peelChar (ch : Char) : List Char → Option (List Char)
  | c :: cs => if c = ch then some cs else none
  | [] => none

/-- The numeric components of an `reISO` match. -/
structure IsoParts where
  year : Int
  month : Int
  day : Int
  hour : Int
  minute : Int
  second : Int
  millis : Int
  offsetMinutes : Int
deriving Repr, DecidableEq

/-- Peel one digit group of width `n` followed by the literal `sep`. -/
def peelGroup (n : Nat) (sep : Char) (cs : List Char) :
    Option (Int × List Char) :=
  match peelDigits n cs with
  | none => none
  | some (ds, rest) =>
    match peelChar sep rest with
    | none => none
    | some rest => some (digitsToInt ds, rest)

/-- The trailing timezone of `reISO`: nothing, `Z`, or a sign followed by
characters from the class `[\d|:]`; returns the offset in minutes. -/
def peelTimezone : List Char → Option Int
  | [] => some 0
  | ['Z'] => some 0
  | c :: rest =>
    if (c == '+' || c == '-') &&
        rest.all (fun ch => ch.isDigit || ch == '|' || ch == ':') then
      -- lenient offset reading (±HH:mm in every claim-relevant input)
      let ds := rest.filter Char.isDigit
      let hh := digitsToInt (ds.take 2)
      let mm := digitsToInt ((ds.drop 2).take 2)
      some (if c == '+' then hh * 60 + mm else -(hh * 60 + mm))
    else none

/-- Match a string against `reISO` and extract its numeric components.
Mirrors the regex exactly: four-digit year, two-digit month, day, hour,
minute and second groups, a mandatory `.` before an optional run of
fraction digits, then the timezone alternatives. -/
def isoComponents (s : String) : Option IsoParts :=
  match peelGroup 4 '-' s.toList with
  | none => none
  | some (y, cs) =>
  match peelGroup 2 '-' cs with
  | none => none
  | some (mo, cs) =>
  match peelGroup 2 'T' cs with
  | none => none
  | some (d, cs) =>
  match peelGroup 2 ':' cs with
  | none => none
  | some (h, cs) =>
  match peelGroup 2 ':' cs with
  | none => none
  | some (mi, cs) =>
  match peelGroup 2 '.' cs with
  | none => none
  | some (sec, cs) =>
  let frac := cs.takeWhile Char.isDigit
  let cs := cs.dropWhile Char.isDigit
  match peelTimezone cs with
  | none => none
  | some tzOff =>
    let frac3 := frac.take 3
    let msFrac := digitsToInt (frac3 ++ List.replicate (3 - frac3.length) '0')
    some ⟨y, mo, d, h, mi, sec, msFrac, tzOff⟩

/-- `reISO.test(value)`. -/
def isoTest (s : String) : Bool := (isoComponents s).isSome

/-- Days since the Unix epoch of a proleptic-Gregorian civil date. -/
def daysFromCivil (y m d : Int) : Int :=
  let yAdj := if m ≤ 2 then y - 1 else y
  let era := Int.fdiv yAdj 400
  let yoe := yAdj - era * 400
  let mp := if m > 2 then m - 3 else m + 9
  let doy := Int.fdiv (153 * mp + 2) 5 + d - 1
  let doe := yoe * 365 + Int.fdiv yoe 4 - Int.fdiv yoe 100 + doy
  era * 146097 + doe - 719468

/-- Civil date of a count of days since the Unix epoch. -/
def civilFromDays (z0 : Int) : Int × Int × Int :=
  let z := z0 + 719468
  let era := Int.fdiv z 146097
  let doe := z - era * 146097
  let yoe :=
    Int.fdiv (doe - Int.fdiv doe 1460 + Int.fdiv doe 36524 - Int.fdiv doe 146096) 365
  let y := yoe + era * 400
  let doy := doe - (365 * yoe + Int.fdiv yoe 4 - Int.fdiv yoe 100)
  let mp := Int.fdiv (5 * doy + 2) 153
  let d := doy - Int.fdiv (153 * mp + 2) 5 + 1
  let m := if mp < 10 then mp + 3 else mp - 9
  (if m ≤ 2 then y + 1 else y, m, d)

/-- Epoch milliseconds of an `reISO`-matching string, as `new Date(s)`
computes them (strings lacking `Z` and offset are host-local; the host
timezone is modelled as UTC).  `0` for non-matching strings, which no
caller reaches behind an `isoTest` guard. -/
def isoToMs (s : String) : Int :=
  match isoComponents s with
  | none => 0
  | some p =>
    daysFromCivil p.year p.month p.day * 86400000 +
      p.hour * 3600000 + p.minute * 60000 + p.second * 1000 +
      p.millis - p.offsetMinutes * 60000

/-- Left-pad a numeral with zeroes. -/
def padNum (n : Nat) (width : Nat) : String :=
  let s := toString n
  String.mk (List.replicate (width - s.length) '0') ++ s

/-- `Date.prototype.toISOString` / `Date.prototype.toJSON`:
`YYYY-MM-DDTHH:mm:ss.sssZ` (years 0–9999; expanded-year formatting is
outside every claim's inputs). -/
def isoStringOf (ms : Int) : String :=
  let day := Int.fdiv ms 86400000
  let rem := (ms - day * 86400000).toNat
  let c := civilFromDays day
  padNum c.1.toNat 4 ++ "-" ++ padNum c.2.1.toNat 2 ++ "-" ++ padNum c.2.2.toNat 2 ++
    "T" ++ padNum (rem / 3600000) 2 ++ ":" ++ padNum (rem / 60000 % 60) 2 ++ ":" ++
    padNum (rem / 1000 % 60) 2 ++ "." ++ padNum (rem % 1000) 3 ++ "Z"

/-- `reviver(key, value)` (src/index.js lines 12-17): a string matching
`reISO` becomes `new Date(value)`; everything else passes through (the
`key` argument is ignored by the source). -/
def reviver (value : JsVal) : JsVal :=
  match value with
  | .str s => if isoTest s then .date (isoToMs s) else value
  | _ => value

/-- `new Date(x)` for the argument shapes the library feeds it: a number of
epoch milliseconds, an ISO-like string (via `isoToMs`), or an existing
`Date`.  Other argument shapes (booleans, objects, malformed strings) are
outside every claim's inputs and are mapped to the epoch. -/
def jsNewDate : JsVal → JsVal
  | .num n => .date n
  | .date m => .date m
  | .str s => .date (isoToMs s)
  | _ => .date 0

/-! ## `JSON.stringify(·, reviver)`

The JavaScript runtime's serializer with `reviver` installed as the
*replacer*, as `Schema.parseJSON` actually invokes it.  Per the runtime's
serialization of a property: `toJSON` runs first (a `Date` yields its ISO
string, a `Model` instance yields its `_data`), then the replacer (here
`reviver`, which maps an ISO-matching string back to a `Date` object), and
the result is serialized — a `Date` object reached after the replacer has
no own enumerable properties and prints as `\x7b\x7d`. -/

/-- JSON string quoting (quote and backslash escapes; control characters
do not occur in any claim input). -/
def quoteJson (s : String) : String :=
  "\"" ++ String.join (s.toList.map (fun c =>
    if c = '"' then "\\\"" else if c = '\\' then "\\\\" else String.singleton c)) ++ "\""

mutual

/-- Serialize one property value under replacer `reviver`; `none` is the
runtime's `undefined` result (the property is omitted). -/
def serMember : JsVal → Option String
  | .undef => none
  | .null => some "null"
  | .nan => some "null"
  | .bool b => some (if b then "true" else "false")
  | .num n => some (toString n)
  | .str s =>
    -- the replacer turns an ISO-matching string into a Date object,
    -- which then serializes as an empty object
    if isoTest s then some "\x7b\x7d" else some (quoteJson s)
  | .date ms =>
    -- toJSON yields the ISO string, which the replacer matches back
    -- into a Date object
    if isoTest (isoStringOf ms) then some "\x7b\x7d"
    else some (quoteJson (isoStringOf ms))
  | .obj fs => some ("\x7b" ++ String.intercalate "," (serFieldList fs) ++ "\x7d")
  | .mobj fs =>
    -- NewModel.toJSON returns this._data
    some ("\x7b" ++ String.intercalate "," (serFieldList fs) ++ "\x7d")

/-- Serialize the members of an object, omitting `undefined` results. -/
def serFieldList : List (String × JsVal) → List String
  | [] => []
  | (k, v) :: rest =>
    match serMember v with
    | some sv => (quoteJson k ++ ":" ++ sv) :: serFieldList rest
    | none => serFieldList rest

end

/-- `JSON.stringify(v, reviver)`: `none` when the root serializes to
`undefined`. -/
def jsStringify (v : JsVal) : Option String := serMember v

/-- `Schema.parseJSON(json)` (src/index.js lines 252-254).  Despite its
name, the source body is `return JSON.stringify(json, reviver);` — it
*serializes* its argument with `reviver` as the replacer and returns the
resulting JSON text (or `undefined`). -/
def Schema.parseJSON (json : JsVal) : JsVal :=
  match jsStringify json with
  | some s => .str s
  | none => JsVal.undef

/-! ## The schema data model

A property descriptor of the shared schema document, with the markers the
compiler reads: `hashKey`/`rangeKey`/`version`/`owner` flags, the declared
`type` and `format`, a `default` value, and for relation properties the
`$ref` pointer plus the `join` mapping (local column name → foreign
attribute name, in declaration order). -/
structure PropDesc where
  type : Option String := none
  format : Option String := none
  default : Option JsVal := none
  hashKey : Bool := false
  rangeKey : Bool := false
  version : Bool := false
  owner : Bool := false
  ref : Option String := none
  join : List (String × String) := []
  required : Option (List String) := none
deriving Repr

/-- A secondary index declaration. -/
structure IndexDesc where
  hashKey : String
  rangeKey : Option String := none
  unique : Bool := false
deriving Repr

/-- A compiled entity schema: the `#schema` held by the `Schema` class
after Ajv compilation, keyed property list in declaration order. -/
structure SchemaM where
  properties : List (String × PropDesc)
  tableName : String := ""
  timestamps : Bool := false
  indexes : List (String × IndexDesc) := []
deriving Repr

/-- The `version` getter (src/index.js lines 157-164): the first property
carrying the version flag. -/
def SchemaM.version (s : SchemaM) : Option String :=
  (s.properties.find? (fun p => p.2.version)).map (·.1)

/-- The `#key` derivation of the constructor (src/index.js lines 126-130):
a scan of all properties where a later flagged property overwrites an
earlier one. -/
def SchemaM.key (s : SchemaM) : Option String × Option String :=
  s.properties.foldl
    (fun acc p =>
      (if p.2.hashKey then some p.1 else acc.1,
       if p.2.rangeKey then some p.1 else acc.2))
    (none, none)

/-- `${x}` interpolation of a JS value that is a string or `undefined`
(as the source does with `key.hashKey` and `prop.type`). -/
def strOrUndefined : Option String → String
  | some s => s
  | none => "undefined"

/-! ## Record transforms -/

/-- Worker for `Schema.toDynamo` iterating the property list. -/
def toDynamoGo (model : Obj) : List (String × PropDesc) → Obj → Except DynError Obj
  | [], item => .ok item
  | (k, prop) :: rest, item =>
    match Obj.get model k with
    | .undef => toDynamoGo model rest item
    | v =>
      match prop.ref with
      | some _ =>
        -- for (const key in prop.join) { item[key] = model[k][join[key]]; }
        match prop.join.foldlM
            (fun it kv =>
              (JsVal.getMember v kv.2).map (fun fv => Obj.set it kv.1 fv))
            item with
        | .error e => .error e
        | .ok item => toDynamoGo model rest item
      | none =>
        match v with
        | .date ms => toDynamoGo model rest (Obj.set item k (.num ms))
        | v => toDynamoGo model rest (Obj.set item k v)

/-- `Schema.toDynamo(model)` (src/index.js lines 196-215): project the
entity's attributes onto a flat record.  Relation attributes are flattened
through every pair of their join mapping; `Date` attributes become their
epoch milliseconds (`valueOf`); `undefined` attributes are skipped.
Reading a join field off a `null` relation value raises a `TypeError`,
hence the `Except`. -/
def SchemaM.toDynamo (s : SchemaM) (model : Obj) : Except DynError Obj :=
  toDynamoGo model s.properties []

/-- Worker for `Schema.parseDynamo` iterating the property list. -/
def parseDynamoGo (item : Obj) : List (String × PropDesc) → Obj → Obj
  | [], model => model
  | (k, prop) :: rest, model =>
    match prop.ref with
    | some _ =>
      if truthy (Obj.get item k) then
        parseDynamoGo item rest (Obj.set model k (Obj.get item k))
      else
        -- const key = Object.keys(prop.join)[0]; an empty join reads
        -- item[undefined], which is undefined, hence the property is skipped
        match prop.join with
        | [] => parseDynamoGo item rest model
        | (key, fk) :: _ =>
          if truthy (Obj.get item key) then
            parseDynamoGo item rest
              (Obj.set model k (.obj [(fk, Obj.get item key)]))
          else parseDynamoGo item rest model
    | none =>
      match Obj.get item k with
      | .undef => parseDynamoGo item rest model
      | v =>
        if prop.format == some "date-time" || prop.format == some "date" then
          parseDynamoGo item rest (Obj.set model k (jsNewDate v))
        else parseDynamoGo item rest (Obj.set model k v)

/-- `Schema.parseDynamo(item)` (src/index.js lines 222-246): the inverse
projection.  A relation attribute keeps a truthy nested value as-is,
otherwise a stub `{foreignAttr: value}` is synthesized from the *first*
join pair's flat column; date-formatted attributes run through
`new Date(·)`. -/
def SchemaM.parseDynamo (s : SchemaM) (item : Obj) : Obj :=
  parseDynamoGo item s.properties []

/-! ## The schema compiler (`Schema` constructor) -/

/-- One entity definition of the shared schema document
(`dynorm.schema.definitions[name]`). -/
structure DefEntry where
  id : String
  properties : List (String × PropDesc)
  required : Option (List String) := none
  tableName : String := ""
  timestamps : Bool := false
  indexes : List (String × IndexDesc) := []
deriving Repr

/-- Replace the value stored under a key of an association list (used for
in-place mutation of an existing definition). -/
def alistSet {α : Type} : List (String × α) → String → α → List (String × α)
  | [], k, v => [(k, v)]
  | (k', v') :: rest, k, v =>
    if k' = k then (k', v) :: rest else (k', v') :: alistSet rest k v

/-- One iteration of the required-hoisting loop of the `Schema`
constructor (src/index.js lines 104-119), operating on the live document:
re-reads the current definition, and for a relation property carrying a
`required` marker moves that marker onto the referenced definition,
deletes it locally, and prunes the referenced definition's own properties
whose `$ref` points back at this schema. -/
def hoistStep (schemaName : String) (doc : List (String × DefEntry))
    (propName : String) : Except DynError (List (String × DefEntry)) :=
  match doc.lookup schemaName with
  | none => .ok doc
  | some sch =>
    match sch.properties.lookup propName with
    | none => .ok doc
    | some prop =>
      match prop.ref, prop.required with
      | some refSchemaName, some req =>
        match doc.lookup refSchemaName with
        | none =>
          -- defSchema.definitions[refSchemaName].required = … on undefined
          .error (.typeError
            ("Cannot set properties of undefined (setting required)"))
        | some refSch =>
          let doc := alistSet doc refSchemaName { refSch with required := some req }
          let doc := alistSet doc schemaName
            { sch with properties :=
                alistSet sch.properties propName { prop with required := none } }
          -- prune the referenced definition's back-references
          match doc.lookup refSchemaName with
          | none => .ok doc
          | some refSch =>
            let pruned := refSch.properties.filter
              (fun rp => !(rp.2.ref == some schemaName))
            .ok (alistSet doc refSchemaName { refSch with properties := pruned })
      | _, _ => .ok doc

/-- The `Schema` constructor (src/index.js lines 87-131): locate the
definition whose `$id` matches the requested identifier (first match,
`break`); when none matches, `schema` stays `null` and the subsequent
`for (const propName in schema.properties)` raises an untyped `TypeError`
— no `SchemaNotFoundError` exists in the source.  On a match, the
required-hoisting/pruning loop runs over the located definition's property
names, the (external) Ajv engine compiles the mutated document, and the
primary key is derived.  Returns the schema name, the compiled schema and
the derived key. -/
def schemaCtor (id : String) (doc : List (String × DefEntry)) :
    Except DynError (String × SchemaM × (Option String × Option String)) :=
  match doc.find? (fun nd => nd.2.id = id) with
  | none =>
    .error (.typeError "Cannot read properties of null (reading properties)")
  | some (schemaName, sch0) =>
    match (sch0.properties.map (·.1)).foldlM (hoistStep schemaName) doc with
    | .error e => .error e
    | .ok doc =>
      -- ajv.addSchema / ajv.getSchema(id).schema: the external validation
      -- engine hands back the located, mutated definition
      match doc.lookup schemaName with
      | none => .error (.typeError "Cannot read properties of undefined (reading schema)")
      | some d =>
        let sm : SchemaM := ⟨d.properties, d.tableName, d.timestamps, d.indexes⟩
        .ok (schemaName, sm, sm.key)

/-! ## The compiled entity constructor (`NewModel.constructor`) -/

/-- The default-initialization loop of the compiled constructor
(src/index.js lines 291-311): for every schema property with a declared
`default`, a *falsy* supplied value (`undefined`, `null`, `0`, `''`,
`false`, `NaN`) is replaced — `'now'` on a string/date-time property
becomes the current `Date`, any other date-time default runs through
`new Date(·)`, and other properties take the default verbatim.  `now` is
the construction-time clock reading. -/
def applyDefaultsStep (now : Int) (d : Obj) (kp : String × PropDesc) : Obj :=
  let k := kp.1
  let prop := kp.2
  if !truthy (Obj.get d k) && prop.default.isSome then
    if prop.type == some "string" && prop.format == some "date-time" then
      if prop.default == some (.str "now") then Obj.set d k (.date now)
      else Obj.set d k (jsNewDate (prop.default.getD .undef))
    else Obj.set d k (prop.default.getD .undef)
  else d

/-- The whole loop, one `applyDefaultsStep` per declared property. -/
def applyDefaults (props : List (String × PropDesc)) (data : Obj) (now : Int) : Obj :=
  props.foldl (applyDefaultsStep now) data

/-! ## The static `update` operation -/

/-- The request handed to the store client's `update`. -/
structure UpdateParams where
  TableName : String
  Key : Obj
  UpdateExpression : String := ""
  ExpressionAttributeNames : List (String × String) := []
  ExpressionAttributeValues : List (String × JsVal) := []
  ConditionExpression : Option String := none
  ReturnValues : String := "ALL_NEW"
deriving Repr

/-- One `#k = :k` clause appended for a surviving body entry
(src/index.js lines 575-580): a comma separator whenever substitution
names already exist. -/
def updClauseStep (st : UpdateParams) (kv : String × JsVal) : UpdateParams :=
  let sep := if st.ExpressionAttributeNames.length != 0 then ", " else ""
  { st with
    UpdateExpression := st.UpdateExpression ++ sep ++ "#" ++ kv.1 ++ " = :" ++ kv.1,
    ExpressionAttributeNames :=
      st.ExpressionAttributeNames ++ [("#" ++ kv.1, kv.1)],
    ExpressionAttributeValues :=
      st.ExpressionAttributeValues ++ [(":" ++ kv.1, kv.2)] }

/-- Core of `NewModel.update` once the verb body has been read: version
handling (the version attribute is *always* written as `Date.now()`, and
a truthy caller-supplied prior value becomes an equality condition before
being deleted from the body), deletion of the key object's attribute
names from the body, then one `#k = :k` clause per surviving body entry.
Returns the built request and the mutated verb body. -/
def staticUpdateCore (s : SchemaM) (key : Obj) (ue0 : String)
    (body : List (String × JsVal)) (now : Int) :
    UpdateParams × List (String × JsVal) :=
  let st0 : UpdateParams :=
    { TableName := s.tableName, Key := key, UpdateExpression := ue0 }
  let step1 :=
    match s.version with
    | none => (st0, body)
    | some k =>
      let ue := ue0 ++ "#" ++ k ++ " = :" ++ k
      let names := [("#" ++ k, k)]
      let vals := [(":" ++ k, JsVal.num now)]
      let withCond :=
        if truthy (Obj.get body k) then
          (some ("#" ++ k ++ " = :" ++ k ++ "Old"),
           vals ++ [(":" ++ k ++ "Old", Obj.get body k)])
        else (none, vals)
      ({ st0 with
          UpdateExpression := ue,
          ExpressionAttributeNames := names,
          ExpressionAttributeValues := withCond.2,
          ConditionExpression := withCond.1 },
       Obj.del body k)
  let st1 := step1.1
  let body2 := (Obj.keys key).foldl (fun b k => Obj.del b k) step1.2
  (body2.foldl updClauseStep st1, body2)

/-- `NewModel.update(key, update)` (src/index.js lines 546-584) up to the
store call: finds the first truthy verb among `$SET`/`$ADD`/`$DELETE`
(anything else, including no verb at all, leaves the expression prefix at
`SET ` and then dereferences `update[undefined]`), builds the update
request, and mutates the caller's `update` object in place — the mutated
object is returned alongside the request. -/
def staticUpdate (s : SchemaM) (key : Obj) (update : Obj) (now : Int) :
    Except DynError (UpdateParams × Obj) :=
  let type? := ["$SET", "$ADD", "$DELETE"].find? (fun t => truthy (Obj.get update t))
  let ue0 :=
    match type? with
    | some "$ADD" => "ADD "
    | some "$DELETE" => "DELETE "
    | _ => "SET "
  match type? with
  | none => .error (.typeError "Cannot convert undefined or null to object")
  | some t =>
    match Obj.get update t with
    | .obj fs =>
      let r := staticUpdateCore s key ue0 fs now
      .ok (r.1, Obj.set update t (.obj r.2))
    | _ =>
      -- a truthy primitive verb body: property reads yield undefined,
      -- deletes are no-ops and Object.keys is empty
      let r := staticUpdateCore s key ue0 [] now
      .ok (r.1, update)

/-- The verb prefix the source picks for a found verb key. -/
def verbPrefix (t : String) : String :=
  if t == "$ADD" then "ADD " else if t == "$DELETE" then "DELETE " else "SET "

/-- Split a character list on a separator token (an executable splitter
for the store model's expression grammar; the fuel argument only bounds
the recursion and equals the input length). -/
def strSplitTok (sep : List Char) : Nat → List Char → List Char → List (List Char)
  | 0, _, acc => [acc.reverse]
  | fuel + 1, cs, acc =>
    match cs with
    | [] => [acc.reverse]
    | c :: rest =>
      if sep.isPrefixOf cs then
        acc.reverse :: strSplitTok sep fuel (cs.drop sep.length) []
      else
        strSplitTok sep fuel rest (c :: acc)

/-- Split a string on a separator substring. -/
def strSplit (sep s : String) : List String :=
  (strSplitTok sep.toList s.toList.length s.toList []).map (fun cs => String.mk cs)

/-- Look up one `#name OP :value` clause through the request's
substitution maps. -/
def parseRefPair (names : List (String × String))
    (vals : List (String × JsVal)) (sep : String) (cl : String) :
    Option (String × JsVal) :=
  match strSplit sep cl with
  | [l, r] =>
    match names.lookup l, vals.lookup r with
    | some attr, some v => some (attr, v)
    | _, _ => none
  | _ => none

/-- Modelled from the spec: the external store client's
`update(TableName, Key, UpdateExpression, ConditionExpression?, …) →
{Attributes}` (§6), for the `SET` expressions this library emits, with
conditional-write semantics: an optional equality condition `#v = :old`
is checked against the stored item (a failure is reported distinctly as a
conditional-check failure), every `SET` clause `#a = :a` writes the
referenced value, and `ReturnValues: 'ALL_NEW'` hands back the resulting
item. -/
def applyUpdate (stored : Obj) (p : UpdateParams) : Except DynError Obj :=
  let condOk :=
    match p.ConditionExpression with
    | none => true
    | some ce =>
      match parseRefPair p.ExpressionAttributeNames
          p.ExpressionAttributeValues " = " ce with
      | some (attr, v) => JsVal.beq (Obj.get stored attr) v
      | none => false
  if !condOk then .error .conditionalCheckFailed
  else if "SET ".toList.isPrefixOf p.UpdateExpression.toList then
    let clauses := strSplit ", " (String.mk (p.UpdateExpression.toList.drop 4))
    .ok (clauses.foldl
      (fun st cl =>
        match parseRefPair p.ExpressionAttributeNames
            p.ExpressionAttributeValues " = " cl with
        | some (attr, v) => Obj.set st attr v
        | none => st)
      stored)
  else .error (.plainError "update verb outside the modelled store interface")

/-! ## `save()` -/

/-- The request handed to the store client's `query` by the unique-index
enforcement. -/
structure QueryParams where
  TableName : String
  IndexName : Option String := none
  KeyConditionExpression : Option String := none
  FilterExpression : Option String := none
  ExpressionAttributeNames : List (String × String) := []
  ExpressionAttributeValues : List (String × JsVal) := []
deriving Repr

/-- The request handed to the store client's `put` by `save()`. -/
structure PutParams where
  TableName : String
  Item : Obj
  ConditionExpression : Option String := none
  ExpressionAttributeNames : Option (List (String × String)) := none
  ExpressionAttributeValues : Option (List (String × JsVal)) := none
deriving Repr

/-- The external collaborators `save()` touches, at their §6 interface
boundary: the store client's `get` (table name and key to the stored
item, if any) and `query` (request to the reported `Count`), the
Ajv-compiled validator's verdict, and the process registry's mapping from
a `$ref` name to the referenced entity's compiled schema. -/
structure SaveDeps where
  getItem : String → Obj → Option Obj
  queryCount : QueryParams → Int
  validate : Obj → Bool
  schemas : String → Option SchemaM

/-- `Object.values(this.#key)`: the hash key then the optional range key
(their insertion order when the hash-key property is declared before the
range-key property, as in every claim input). -/
def keyValues : Option String × Option String → List String
  | (some h, some r) => [h, r]
  | (some h, none) => [h]
  | (none, some r) => [r]
  | (none, none) => []

/-- Static `NewModel.get(key)` (src/index.js lines 591-599) as the
relation-resolution step invokes it (`fields = []`, so `populate` returns
immediately): project the supplied value onto the primary-key attributes,
fetch, return `null` when absent, otherwise hydrate a `Model` instance
(whose constructor applies the default-value loop to the parsed record).
`now` is the clock reading for date-time defaults. -/
def modelGet (deps : SaveDeps) (s : SchemaM) (now : Int) (keyVal : JsVal) :
    Except DynError (Option JsVal) :=
  match (keyValues s.key).foldlM
      (fun (a : Obj) c => (keyVal.getMember c).map (fun v => Obj.set a c v)) [] with
  | .error e => .error e
  | .ok keyObj =>
    match deps.getItem s.tableName keyObj with
    | none => .ok none
    | some item =>
      .ok (some (.mobj (applyDefaults s.properties (s.parseDynamo item) now)))

/-- The relation-resolution loop of `save()` (src/index.js lines 326-340):
every truthy relation attribute that is not already a `Model` instance is
fetched by its value acting as the referenced entity's key; a `null`
result raises the relation-not-exist failure. -/
def relLoop (deps : SaveDeps) (now : Int) :
    List (String × PropDesc) → Obj → Except DynError Obj
  | [], data => .ok data
  | (propName, prop) :: rest, data =>
    if !truthy (Obj.get data propName) then relLoop deps now rest data
    else
      match prop.ref with
      | none => relLoop deps now rest data
      | some refName =>
        match Obj.get data propName with
        | .mobj fs => relLoop deps now rest (Obj.set data propName (.mobj fs))
        | objVal =>
          match deps.schemas refName with
          | none =>
            -- orm.model on an unregistered name compiles against an
            -- undefined schema document and crashes in the constructor
            .error (.typeError "Cannot read properties of undefined (reading definitions)")
          | some refSchema =>
            match modelGet deps refSchema now objVal with
            | .error e => .error e
            | .ok none => .error (.dynorm ("Relation " ++ propName ++ " not exist"))
            | .ok (some m) => relLoop deps now rest (Obj.set data propName m)

/-- The query issue and `Count` check of one unique index (src/index.js
lines 386-414). -/
def uniqueQuery (deps : SaveDeps) (s : SchemaM) (data : Obj) (isNew : Bool)
    (k : String) (hashKey : String) (hashVal : JsVal)
    (range : Option (String × JsVal)) : Except DynError Unit :=
  let p0 : QueryParams :=
    { TableName := s.tableName, IndexName := some k,
      KeyConditionExpression := some ("#" ++ hashKey ++ " = :" ++ hashKey),
      ExpressionAttributeNames := [("#" ++ hashKey, hashKey)],
      ExpressionAttributeValues := [(":" ++ hashKey, hashVal)] }
  let p1 :=
    match range with
    | none => p0
    | some (rangeKey, rangeVal) =>
      { p0 with
        KeyConditionExpression :=
          p0.KeyConditionExpression.map (· ++ " AND #" ++ rangeKey ++ " = :" ++ rangeKey),
        ExpressionAttributeNames :=
          p0.ExpressionAttributeNames ++ [("#" ++ rangeKey, rangeKey)],
        ExpressionAttributeValues :=
          p0.ExpressionAttributeValues ++ [(":" ++ rangeKey, rangeVal)] }
  let p2 :=
    if !isNew then
      let kh := strOrUndefined s.key.1
      let base :=
        { p1 with
          FilterExpression := some ("#" ++ kh ++ "Pk <> :" ++ kh ++ "Pk"),
          ExpressionAttributeNames :=
            p1.ExpressionAttributeNames ++ [("#" ++ kh ++ "Pk", kh)],
          ExpressionAttributeValues :=
            p1.ExpressionAttributeValues ++ [(":" ++ kh ++ "Pk", Obj.get data kh)] }
      match s.key.2 with
      | none => base
      | some kr =>
        { base with
          FilterExpression :=
            base.FilterExpression.map (· ++ " AND #" ++ kr ++ "Pk <> :" ++ kr ++ "Pk"),
          ExpressionAttributeNames :=
            base.ExpressionAttributeNames ++ [("#" ++ kr ++ "Pk", kr)],
          ExpressionAttributeValues :=
            base.ExpressionAttributeValues ++ [(":" ++ kr ++ "Pk", Obj.get data kr)] }
    else p1
  if deps.queryCount p2 != 0 then
    .error (.dynorm ("Unique index constraint " ++ k))
  else .ok ()

/-- The unique-index enforcement loop of `save()` (src/index.js lines
352-415): for every index flagged `unique`, resolve the hash (and
optional range) component — through the first join pair when the backing
attribute is a relation — fail when a component is falsy, issue the
key-conditioned query (adding, for a persisted entity, a filter excluding
its own primary key under `…Pk` substitution names), and fail with the
unique-constraint violation whenever the store reports a nonzero
`Count`. -/
def uniqueLoop (deps : SaveDeps) (s : SchemaM) (data : Obj) (isNew : Bool) :
    List (String × IndexDesc) → Except DynError Unit
  | [] => .ok ()
  | (k, index) :: rest =>
    if !index.unique then uniqueLoop deps s data isNew rest
    else
      match s.properties.lookup index.hashKey with
      | none => .error (.typeError "Cannot read properties of undefined (reading $ref)")
      | some prop =>
        let hashPart : Except DynError (String × JsVal) :=
          match prop.ref with
          | some _ =>
            let hashKey := strOrUndefined ((prop.join.head?).map (·.1))
            let fk := strOrUndefined ((prop.join.head?).map (·.2))
            ((Obj.get data index.hashKey).getMember fk).map (fun v => (hashKey, v))
          | none => .ok (index.hashKey, Obj.get data index.hashKey)
        match hashPart with
        | .error e => .error e
        | .ok (hashKey, hashVal) =>
          if !truthy hashVal then
            .error (.dynorm
              ("Unique index constraint " ++ k ++ " hashKey " ++ hashKey ++ " is empty"))
          else
            let rangePart : Except DynError (Option (String × JsVal)) :=
              match index.rangeKey with
              | none => .ok none
              | some rk =>
                match s.properties.lookup rk with
                | none =>
                  .error (.typeError "Cannot read properties of undefined (reading $ref)")
                | some rprop =>
                  match rprop.ref with
                  | some _ =>
                    let rangeKey := strOrUndefined ((rprop.join.head?).map (·.1))
                    let fk := strOrUndefined ((rprop.join.head?).map (·.2))
                    ((Obj.get data rk).getMember fk).map (fun v => some (rangeKey, v))
                  | none => .ok (some (rk, Obj.get data rk))
            match rangePart with
            | .error e => .error e
            | .ok rp =>
              let checked : Except DynError Unit :=
                match rp with
                | some (rangeKey, rangeVal) =>
                  if !truthy rangeVal then
                    .error (.dynorm ("Unique index constraint " ++ k ++
                      " rangeKey " ++ rangeKey ++ " is empty"))
                  else
                    uniqueQuery deps s data isNew k hashKey hashVal
                      (some (rangeKey, rangeVal))
                | none => uniqueQuery deps s data isNew k hashKey hashVal none
              match checked with
              | .error e => .error e
              | .ok _ => uniqueLoop deps s data isNew rest

/-- Truthiness of `params.ConditionExpression` (`undefined` or a string). -/
def ceTruthy : Option String → Bool
  | some s => s != ""
  | none => false

/-- `x++` on the stored version attribute: arithmetic increment on a
number; anything else becomes `NaN` (numeric strings occur in no claim
input). -/
def jsIncr : JsVal → JsVal
  | .num n => .num (n + 1)
  | _ => .nan

/-- The put-request construction of `save()` (src/index.js lines 427-470):
`toDynamo` projection, then the version block — on a truthy original
version an equality condition is started with the overwriting
`params.ConditionExpression = (params.ConditionExpression) ? ' AND ' : ''`
assignment and the item's version advances (integer increment, or
`Date.now()` for a date-time version, anything else unsupported); on a
missing item version the initial value is installed — then the new-entity
block, which runs the same overwriting assignment before each
`attribute_not_exists` clause, so each assignment *discards* whatever
condition was already present. -/
def buildPut (s : SchemaM) (data orig : Obj) (isNew : Bool) (now : Int) :
    Except DynError PutParams :=
  match s.toDynamo data with
  | .error e => .error e
  | .ok item =>
    let p0 : PutParams := { TableName := s.tableName, Item := item }
    let afterVersion : Except DynError PutParams :=
      match s.version with
      | none => .ok p0
      | some ver =>
        match s.properties.lookup ver with
        | none => .error (.typeError "Cannot read properties of undefined (reading type)")
        | some prop =>
          if truthy (Obj.get orig ver) then
            let ce0 := if ceTruthy p0.ConditionExpression then " AND " else ""
            let names := (p0.ExpressionAttributeNames.getD []) ++ [("#" ++ ver, ver)]
            let ce := ce0 ++ "#" ++ ver ++ " = :" ++ ver
            if prop.type == some "integer" then
              .ok { p0 with
                ConditionExpression := some ce,
                ExpressionAttributeNames := some names,
                ExpressionAttributeValues :=
                  some ((p0.ExpressionAttributeValues.getD []) ++
                    [(":" ++ ver, Obj.get orig ver)]),
                Item := Obj.set item ver (jsIncr (Obj.get item ver)) }
            else if prop.type == some "string" && prop.format == some "date-time" then
              match Obj.get orig ver with
              | .date m =>
                .ok { p0 with
                  ConditionExpression := some ce,
                  ExpressionAttributeNames := some names,
                  ExpressionAttributeValues :=
                    some ((p0.ExpressionAttributeValues.getD []) ++
                      [(":" ++ ver, JsVal.num m)]),
                  Item := Obj.set item ver (.num now) }
              | _ => .error (.typeError "getTime is not a function")
            else
              .error (.dynorm
                ("Version property type " ++ strOrUndefined prop.type ++ " not supported"))
          else
            match Obj.get item ver with
            | .undef =>
              if prop.type == some "integer" then
                .ok { p0 with Item := Obj.set item ver (.num 1) }
              else if prop.type == some "string" && prop.format == some "date-time" then
                .ok { p0 with Item := Obj.set item ver (.num now) }
              else
                .error (.dynorm
                  ("Version property type " ++ strOrUndefined prop.type ++ " not supported"))
            | _ => .ok p0
    match afterVersion with
    | .error e => .error e
    | .ok p =>
      if isNew then
        let kh := strOrUndefined s.key.1
        let names := (p.ExpressionAttributeNames.getD []) ++ [("#" ++ kh, kh)]
        -- params.ConditionExpression = (params.ConditionExpression) ? ' AND ' : '';
        let ce1 := (if ceTruthy p.ConditionExpression then " AND " else "") ++
          "attribute_not_exists(#" ++ kh ++ ")"
        match s.key.2 with
        | none =>
          .ok { p with ConditionExpression := some ce1,
                       ExpressionAttributeNames := some names }
        | some kr =>
          -- the same overwriting assignment runs again, discarding ce1
          let ce2 := (if ceTruthy (some ce1) then " AND " else "") ++
            "attribute_not_exists(#" ++ kr ++ ")"
          .ok { p with ConditionExpression := some ce2,
                       ExpressionAttributeNames :=
                         some (names ++ [("#" ++ kr, kr)]) }
      else .ok p

/-- `save()` (src/index.js lines 324-474) up to the store's `put` call:
relation resolution, the external validator's verdict, unique-index
enforcement, the timestamp step (which on an update *restores* `createdAt`
and `updatedAt` from the construction-time snapshot `#orig`), and the
put-request construction.  Returns the request handed to `put`. -/
def save (deps : SaveDeps) (s : SchemaM) (data0 orig : Obj) (isNew : Bool)
    (now : Int) : Except DynError PutParams :=
  match relLoop deps now s.properties data0 with
  | .error e => .error e
  | .ok data1 =>
    if !deps.validate data1 then .error .validation
    else
      match uniqueLoop deps s data1 isNew s.indexes with
      | .error e => .error e
      | .ok _ =>
        let data2 :=
          if s.timestamps then
            if isNew then
              Obj.set (Obj.set data1 "createdAt" (.date now)) "updatedAt" (.date now)
            else
              Obj.set (Obj.set data1 "createdAt" (Obj.get orig "createdAt"))
                "updatedAt" (Obj.get orig "updatedAt")
          else data1
        buildPut s data2 orig isNew now

/-- Modelled from the spec: the external store client's `query` (§6) as
the unique-index enforcement consumes it — the reported `Count` is the
number of stored records of the queried table satisfying every `=` clause
of the key-condition expression and every `<>` clause of the filter
expression, resolved through the request's substitution maps. -/
def specQueryCount (records : List Obj) (p : QueryParams) : Int :=
  let keyCls :=
    match p.KeyConditionExpression with
    | none => []
    | some s => strSplit " AND " s
  let filtCls :=
    match p.FilterExpression with
    | none => []
    | some s => strSplit " AND " s
  ((records.filter (fun r =>
      keyCls.all (fun cl =>
        match parseRefPair p.ExpressionAttributeNames
            p.ExpressionAttributeValues " = " cl with
        | some (attr, v) => JsVal.beq (Obj.get r attr) v
        | none => false) &&
      filtCls.all (fun cl =>
        match parseRefPair p.ExpressionAttributeNames
            p.ExpressionAttributeValues " <> " cl with
        | some (attr, v) => !JsVal.beq (Obj.get r attr) v
        | none => false))).length : Int)

/-! ## The pagination engine (`Model.find`)

The store is modelled as a finite *response script*: the list of pages
the client hands back to the successive `query`/`scan` calls.  Recursion
walks the script (every theorem supplies a script long enough for its
run; an exhausted script returns the accumulator as-is). -/

/-- One `query`/`scan` response page. -/
structure Page where
  Items : List Obj := []
  ScannedCount : Int := 0
  LastEvaluatedKey : Option Obj := none
deriving Repr

/-- The `opts` argument of `Model.find`: the post-fetch filter predicate,
the per-item map transform, the reduce fold with its seed. -/
structure FindOpts where
  filter : Option (Obj → Bool) := none
  map : Option (Obj → Obj) := none
  reduce : Option (JsVal → Obj → JsVal) := none
  initialValue : JsVal := JsVal.undef

/-- The loop-relevant request fields threaded through the recursion. -/
structure FindParams where
  Limit : Option Int := none
  ExclusiveStartKey : Option Obj := none
deriving Repr

/-- The pagination accumulator. -/
structure FindAcc where
  Items : List Obj := []
  ScannedCount : Int := 0
  Count : Option Int := none
  Accumulator : JsVal := .undef
  LastEvaluatedKey : Option Obj := none
deriving Repr

/-- `Model.find(client, params, opts, acc)` (src/index.js lines 744-772):
configuration checks (map and reduce are mutually exclusive; reduce needs
a truthy initial value, re-seeded whenever the accumulator is falsy),
then one page per call — scanned-count accumulation, filter, concurrent
map, reduce-or-concat — after which `params.Limit`, when truthy, is
decremented by the length of `data.Items` *as reassigned by the filter
and map steps*; while the store returns a continuation token and the
limit is absent or still positive the recursion continues, otherwise the
token is retained on the accumulator. -/
def Model.find (pages : List Page) (params : FindParams) (opts : FindOpts)
    (acc : FindAcc) : Except DynError FindAcc :=
  if opts.map.isSome && opts.reduce.isSome then
    .error (.plainError "Only map or reduce is required")
  else if opts.reduce.isSome && !truthy opts.initialValue then
    .error (.plainError "Reduce initialValue is required")
  else
    let acc :=
      if opts.reduce.isSome && !truthy acc.Accumulator then
        { acc with Accumulator := opts.initialValue }
      else acc
    match pages with
    | [] => .ok acc
    | page :: rest =>
      let acc := { acc with ScannedCount := acc.ScannedCount + page.ScannedCount }
      let items1 :=
        match opts.filter with
        | some f => page.Items.filter f
        | none => page.Items
      let items2 :=
        match opts.map with
        | some m => items1.map m
        | none => items1
      let acc :=
        match opts.reduce with
        | some red => { acc with Accumulator := items2.foldl red acc.Accumulator }
        | none =>
          { acc with Items := acc.Items ++ items2,
                     Count := some ((acc.Items ++ items2).length : Int) }
      let params :=
        match params.Limit with
        | some l =>
          if l != 0 then { params with Limit := some (l - (items2.length : Int)) }
          else params
        | none => params
      match page.LastEvaluatedKey with
      | some lek =>
        match params.Limit with
        | none => Model.find rest { params with ExclusiveStartKey := some lek } opts acc
        | some l =>
          if l > 0 then
            Model.find rest { params with ExclusiveStartKey := some lek } opts acc
          else .ok { acc with LastEvaluatedKey := some lek }
      | none => .ok acc

/-- Follows the claim's words (C5, spec §4.4): each page decrements the
caller-supplied Limit by the number of items *fetched from the store* on
that page; recursion continues while the store returns a continuation
token and either no Limit was given or the remaining Limit is positive;
otherwise iteration stops and the final continuation token is retained on
the accumulator; the filter predicate only shrinks the result set. -/
def specFindFetched (pages : List Page) (limit : Option Int)
    (filter : Option (Obj → Bool)) (acc : FindAcc) : FindAcc :=
  match pages with
  | [] => acc
  | page :: rest =>
    let fetched := (page.Items.length : Int)
    let kept :=
      match filter with
      | some f => page.Items.filter f
      | none => page.Items
    let acc :=
      { acc with ScannedCount := acc.ScannedCount + page.ScannedCount,
                 Items := acc.Items ++ kept,
                 Count := some ((acc.Items ++ kept).length : Int) }
    let limit := limit.map (· - fetched)
    match page.LastEvaluatedKey with
    | some lek =>
      match limit with
      | none => specFindFetched rest none filter acc
      | some l =>
        if l > 0 then specFindFetched rest (some l) filter acc
        else { acc with LastEvaluatedKey := some lek }
    | none => acc

/-- The amendment of C5: identical to `specFindFetched` except that each
page decrements the Limit by the number of items *remaining after the
filter* (the decrement only reaches a truthy, i.e. nonzero, limit). -/
def specFindKept (pages : List Page) (limit : Option Int)
    (filter : Option (Obj → Bool)) (acc : FindAcc) : FindAcc :=
  match pages with
  | [] => acc
  | page :: rest =>
    let kept :=
      match filter with
      | some f => page.Items.filter f
      | none => page.Items
    let acc :=
      { acc with ScannedCount := acc.ScannedCount + page.ScannedCount,
                 Items := acc.Items ++ kept,
                 Count := some ((acc.Items ++ kept).length : Int) }
    let limit :=
      match limit with
      | some l => if l != 0 then some (l - (kept.length : Int)) else some l
      | none => none
    match page.LastEvaluatedKey with
    | some lek =>
      match limit with
      | none => specFindKept rest none filter acc
      | some l =>
        if l > 0 then specFindKept rest (some l) filter acc
        else { acc with LastEvaluatedKey := some lek }
    | none => acc

/-! ## The bulk engine (`Model.batchGet` / `Model.batchGetKeys`) -/

/-- One `batchGet` response of the store client. -/
structure BGResp where
  Responses : List (String × List Obj) := []
  UnprocessedKeys : List (String × List Obj) := []
deriving Repr

/-- The per-table merge
`Object.keys(res).reduce((a, c) => { a[c] = (a[c]) ? a[c].concat(res[c]) : res[c]; return a; }, obj)`
(src/index.js lines 708 and 731): an existing (always-truthy) array is
concatenated onto, a missing table is appended. -/
def mergeResp (a b : List (String × List Obj)) : List (String × List Obj) :=
  b.foldl
    (fun acc tb =>
      match acc.lookup tb.1 with
      | some cur => alistSet acc tb.1 (cur ++ tb.2)
      | none => acc ++ [(tb.1, tb.2)])
    a

/-- `Model.batchGet(client, params)` (src/index.js lines 702-711) against
a response script: take the store's response; while it reports
unprocessed keys, reissue exactly those and merge the recursive result
into this response's `Responses`.  Returns the merged per-table arrays
and the unconsumed remainder of the script. -/
def Model.batchGet (script : List BGResp) (req : List (String × List Obj)) :
    (List (String × List Obj)) × List BGResp :=
  match script with
  | [] => ([], [])
  | r :: rest =>
    if r.UnprocessedKeys.length != 0 then
      let res := Model.batchGet rest r.UnprocessedKeys
      (mergeResp r.Responses res.1, res.2)
    else (r.Responses, rest)

/-- Group one chunk of flattened `(table, key)` pairs back into the
`RequestItems` shape `{table: {Keys: […]}}` (src/index.js lines 726-729). -/
def buildReq (c : List (String × Obj)) : List (String × List Obj) :=
  c.foldl
    (fun acc tk =>
      match acc.lookup tk.1 with
      | some ks => alistSet acc tk.1 (ks ++ [tk.2])
      | none => acc ++ [(tk.1, [tk.2])])
    []

/-- Successive slices `items.slice(i, i + n)` of the chunking loops
`for (let x = 0, i = 0; x < items.length / n; i += n, x++)`
(src/index.js lines 666-674, 686-694 and 723-732): the loop executes
once per `n`-sized slice, i.e. `⌈length / n⌉` times. -/
def chunksOf {α : Type} (n : Nat) : List α → List (List α)
  | [] => []
  | x :: xs => (x :: xs.take (n - 1)) :: chunksOf n (xs.drop (n - 1))
termination_by l => l.length
decreasing_by
  simp only [List.length_drop, List.length_cons]
  omega

/-- The per-chunk loop of `Model.batchGetKeys` threading the response
script and merging every chunk's result into the accumulator. -/
def bgkLoop (script : List BGResp) (chunks : List (List (String × Obj)))
    (obj : List (String × List Obj)) : List (String × List Obj) :=
  match chunks with
  | [] => obj
  | c :: cs =>
    let res := Model.batchGet script (buildReq c)
    bgkLoop res.2 cs (mergeResp obj res.1)

/-- `Model.batchGetKeys(client, tableKeys)` (src/index.js lines 718-734):
seed one empty array per requested table, flatten the keys to `(table,
key)` pairs, slice them into chunks of at most 100, issue one `batchGet`
per chunk and merge all partial per-table results. -/
def Model.batchGetKeys (script : List BGResp)
    (tableKeys : List (String × List Obj)) : List (String × List Obj) :=
  match tableKeys with
  | [] => []
  | _ =>
    let obj0 := tableKeys.map (fun tk => (tk.1, ([] : List Obj)))
    let keys := (tableKeys.map (fun tk => tk.2.map (fun k => (tk.1, k)))).flatten
    bgkLoop script (chunksOf 100 keys) obj0

/-! ## Characterizations used by theorem statements -/

/-- The value the default-initialization loop installs for a property with
a declared default. -/
def defaultValueOf (prop : PropDesc) (now : Int) : JsVal :=
  if prop.type == some "string" && prop.format == some "date-time" then
    if prop.default == some (.str "now") then .date now
    else jsNewDate (prop.default.getD .undef)
  else prop.default.getD JsVal.undef

/-- All items reported for table `t` across a per-table response list
(every entry whose key is `t`, in order). -/
def tableConcat (t : String) (b : List (String × List Obj)) : List Obj :=
  ((b.filter (fun x => x.1 == t)).map (·.2)).flatten

/-- The flat record columns a property occupies: its join columns for a
relation property, its own name otherwise. -/
def propCols (kp : String × PropDesc) : List String :=
  match kp.2.ref with
  | some _ => kp.2.join.map (·.1)
  | none => [kp.1]

/-- All record columns of a schema. -/
def SchemaM.columns (s : SchemaM) : List String :=
  (s.properties.map propCols).flatten

/-- What `parseDynamo` stores for one property (`dflt` when the property
contributes nothing). -/
def parseContrib (item : Obj) (k : String) (prop : PropDesc) (dflt : JsVal) : JsVal :=
  match prop.ref with
  | some _ =>
    if truthy (Obj.get item k) then Obj.get item k
    else
      match prop.join with
      | [] => dflt
      | (c, f) :: _ =>
        if truthy (Obj.get item c) then .obj [(f, Obj.get item c)] else dflt
  | none =>
    match Obj.get item k with
    | .undef => dflt
    | v =>
      if prop.format == some "date-time" || prop.format == some "date" then jsNewDate v
      else v

/-! ## Demonstration inputs -/

/-- A one-definition schema document (C6). -/
def demoDoc : List (String × DefEntry) :=
  [("User", { id := "User", properties := [("id", { hashKey := true })] })]

/-- A JSON text as `fromJSON` would hand to `parseJSON` (C7). -/
def demoJsonText : String := "\x7b\"a\":\"2020-01-01T00:00:00.000Z\"\x7d"

/-- A schema with a hash key and a range key (C2). -/
def demoS2 : SchemaM :=
  { tableName := "t2",
    properties :=
      [("id", { type := some "string", hashKey := true }),
       ("sk", { type := some "string", rangeKey := true }),
       ("email", { type := some "string" })] }

/-- A quiescent set of external collaborators: the store finds nothing and
counts nothing, validation passes, the registry is empty (C2). -/
def demoDeps : SaveDeps :=
  { getItem := fun _ _ => none, queryCount := fun _ => 0,
    validate := fun _ => true, schemas := fun _ => none }

/-- A new entity carrying both key attributes (C2). -/
def demoData2 : Obj := [("id", .str "a"), ("sk", .str "b"), ("email", .str "c")]

/-- The spec scenario's schema: string id (hash key), integer version,
string email (C1). -/
def demoUserS : SchemaM :=
  { tableName := "users",
    properties :=
      [("id", { type := some "string", hashKey := true }),
       ("version", { type := some "integer", version := true }),
       ("email", { type := some "string" })] }

/-- The stored row of the scenario: version 1, email a@x.com (C1). -/
def demoStored : Obj :=
  [("id", .str "u1"), ("version", .num 1), ("email", .str "a@x.com")]

/-- The caller's key `{id: "u1"}` (C1). -/
def demoKeyU : Obj := [("id", .str "u1")]

/-- The caller's update spec `{$SET: {email: "b@x.com"}}` (C1). -/
def demoUpd : Obj := [("$SET", .obj [("email", .str "b@x.com")])]

/-- An update spec also naming the version and the key attribute (C9). -/
def demoUpd9 : Obj :=
  [("$SET", .obj [("email", .str "b@x.com"), ("version", .num 1), ("id", .str "zz")])]

/-- Properties with defaults of each kind (C10). -/
def demoDefProps : List (String × PropDesc) :=
  [("a", { type := some "integer", default := some (.num 7) }),
   ("b", { type := some "string", default := some (.str "x") }),
   ("c", { type := some "string", format := some "date-time",
           default := some (.str "now") })]

/-- Falsy supplied values: `0`, `''` and `false` (C10). -/
def demoDefData : Obj := [("a", .num 0), ("b", .str ""), ("c", .bool false)]

/-- The uniqueness scenario's schema: id (hash key) and a unique index on
email (C3). -/
def demoU3 : SchemaM :=
  { tableName := "users",
    properties :=
      [("id", { type := some "string", hashKey := true }),
       ("email", { type := some "string" })],
    indexes := [("emailIdx", { hashKey := "email", unique := true })] }

/-- The table contents after the first entity was stored (C3). -/
def demoRecords : List Obj := [[("id", .str "u1"), ("email", .str "a@x.com")]]

/-- The second new entity, sharing the email (C3). -/
def demoDataS : Obj := [("id", .str "u2"), ("email", .str "a@x.com")]

/-- The pagination filter of the C5 scenario: keep records whose `keep`
attribute is truthy. -/
def demoFilter : Obj → Bool := fun r => truthy (Obj.get r "keep")

/-- Two pages: the first fetches three items of which the filter keeps
one, and carries a continuation token; the second fetches one. -/
def demoPages : List Page :=
  [{ Items := [[("keep", .num 1), ("n", .num 1)],
               [("keep", .num 0), ("n", .num 2)],
               [("keep", .num 0), ("n", .num 3)]],
     ScannedCount := 3,
     LastEvaluatedKey := some [("n", .num 3)] },
   { Items := [[("keep", .num 1), ("n", .num 4)]], ScannedCount := 1 }]

/-- A relation property with a two-pair join (C4). -/
def demoRelS : SchemaM :=
  { tableName := "orders",
    properties :=
      [("owner", { ref := some "User",
                   join := [("ownerId", "id"), ("ownerRegion", "region")] })] }

/-- A record populated on both foreign-key columns (C4). -/
def demoRelRecord : Obj := [("ownerId", .num 1), ("ownerRegion", .num 2)]

/-- `n` records with ids `start..start+n-1` (C8). -/
def demoRecs (start n : Nat) : List Obj :=
  (List.range n).map (fun i => [("id", JsVal.num (start + i))])

/-- 250 keys against one table (C8). -/
def demoKeys250 : List Obj :=
  (List.range 250).map (fun i => [("id", JsVal.num i)])

/-- The store's three chunk responses: 100, 100 and 50 matches, nothing
unprocessed (C8). -/
def demoScript8 : List BGResp :=
  [{ Responses := [("T", demoRecs 0 100)] },
   { Responses := [("T", demoRecs 100 100)] },
   { Responses := [("T", demoRecs 200 50)] }]

/-- A single-pair-join relation schema beside scalar and date columns (C4). -/
def demoRelS1 : SchemaM :=
  { tableName := "orders",
    properties :=
      [("owner", { ref := some "User", join := [("ownerId", "id")] }),
       ("name", { type := some "string" }),
       ("when", { type := some "string", format := some "date-time" })] }

/-- A record exercising the single-pair round-trip (C4). -/
def demoRelRecord1 : Obj :=
  [("ownerId", .num 1), ("name", .str "a"), ("when", .num 5)]

/-! ## Object lemmas -/

theorem Obj.get_set_self : ∀ (o : Obj) (k : String) (v : JsVal),
    Obj.get (Obj.set o k v) k = v
  | [], k, v => by simp [Obj.set, Obj.get]
  | (k', v') :: rest, k, v => by
    by_cases h : k' = k
    · simp [Obj.set, Obj.get, h]
    · simp [Obj.set, Obj.get, h, Obj.get_set_self rest k v]

theorem Obj.get_set_other : ∀ (o : Obj) (k' k : String) (v : JsVal), k' ≠ k →
    Obj.get (Obj.set o k' v) k = Obj.get o k
  | [], k', k, v, h => by simp [Obj.set, Obj.get, h]
  | (k0, v0) :: rest, k', k, v, h => by
    by_cases h0 : k0 = k'
    · simp [Obj.set, Obj.get, h0, h]
    · simp only [Obj.set, h0, if_false]
      by_cases h1 : k0 = k
      · simp [Obj.get, h1]
      · simp [Obj.get, h1, Obj.get_set_other rest k' k v h]

theorem Obj.get_eq_undef_of_not_mem : ∀ (o : Obj) (k : String),
    k ∉ Obj.keys o → Obj.get o k = .undef
  | [], _, _ => rfl
  | (k0, v0) :: rest, k, h => by
    have h0 : k0 ≠ k := by
      intro hk; exact h (by simp [Obj.keys, hk])
    have h1 : k ∉ Obj.keys rest := by
      intro hk; exact h (by simp [Obj.keys] at hk ⊢; exact Or.inr hk)
    simp [Obj.get, h0, Obj.get_eq_undef_of_not_mem rest k h1]

theorem Obj.keys_cons (k0 : String) (v0 : JsVal) (rest : Obj) :
    Obj.keys ((k0, v0) :: rest) = k0 :: Obj.keys rest := rfl

theorem Obj.get_del_self : ∀ (o : Obj) (k : String), (Obj.keys o).Nodup →
    Obj.get (Obj.del o k) k = .undef
  | [], _, _ => rfl
  | (k0, v0) :: rest, k, h => by
    rw [Obj.keys_cons] at h
    by_cases hk : k0 = k
    · subst hk
      simp only [Obj.del, if_pos rfl]
      exact Obj.get_eq_undef_of_not_mem rest k0 (List.nodup_cons.mp h).1
    · simp [Obj.del, Obj.get, hk,
        Obj.get_del_self rest k (List.nodup_cons.mp h).2]

theorem Obj.get_del_other : ∀ (o : Obj) (k' k : String), k' ≠ k →
    Obj.get (Obj.del o k') k = Obj.get o k
  | [], _, _, _ => rfl
  | (k0, v0) :: rest, k', k, h => by
    by_cases h0 : k0 = k'
    · subst h0
      simp only [Obj.del, if_pos rfl]
      simp [Obj.get, h]
    · by_cases h1 : k0 = k
      · subst h1
        simp [Obj.del, Obj.get, h0]
      · simp [Obj.del, Obj.get, h0, h1, Obj.get_del_other rest k' k h]

theorem Obj.del_sublist : ∀ (o : Obj) (k : String), (Obj.del o k).Sublist o
  | [], _ => List.Sublist.refl _
  | (k0, v0) :: rest, k => by
    by_cases h0 : k0 = k
    · simp only [Obj.del, if_pos h0]
      exact List.sublist_cons_self _ _
    · simp only [Obj.del, if_neg h0]
      exact List.Sublist.cons₂ _ (Obj.del_sublist rest k)

theorem Obj.keys_del_nodup (o : Obj) (k : String) (h : (Obj.keys o).Nodup) :
    (Obj.keys (Obj.del o k)).Nodup :=
  ((Obj.del_sublist o k).map Prod.fst).nodup h

/-! ## C6 — the schema compiler on a missing definition

The claim says a missing definition fails with `SchemaNotFoundError`, a
typed error.  The source initializes `schema = null`, never checks it, and
dereferences it: the failure is an untyped runtime `TypeError`. -/

/-- C6: compiling an entity name matching no definition of the shared
document crashes with an untyped `TypeError` (`null` dereference) — not
with the spec taxonomy's `SchemaNotFoundError`, which the source never
constructs. -/
theorem schemaCtor_missing_definition_untyped_error :
    schemaCtor "Missing" demoDoc =
      .error (.typeError "Cannot read properties of null (reading properties)") ∧
    schemaCtor "Missing" demoDoc ≠ .error .schemaNotFound := by
  refine ⟨rfl, ?_⟩
  intro h
  rw [show schemaCtor "Missing" demoDoc =
    .error (.typeError "Cannot read properties of null (reading properties)")
    from rfl] at h
  simp at h

/-! ## C7 — `parseJSON` serializes instead of parsing -/

/-- C7: `parseJSON` applied to a JSON text returns a *string* — the text
re-serialized by `JSON.stringify(·, reviver)` — and in particular never
the parsed object with its ISO strings revived into `Date` values that
the claim describes. -/
theorem parseJSON_stringifies_not_parses :
    Schema.parseJSON (.str demoJsonText) = .str (quoteJson demoJsonText) ∧
    quoteJson demoJsonText =
      "\"\x7b\\\"a\\\":\\\"2020-01-01T00:00:00.000Z\\\"\x7d\"" ∧
    ∀ fs, Schema.parseJSON (.str demoJsonText) ≠ JsVal.obj fs := by
  refine ⟨rfl, rfl, ?_⟩
  intro fs h
  rw [show Schema.parseJSON (.str demoJsonText) = .str (quoteJson demoJsonText)
    from rfl] at h
  exact JsVal.noConfusion h

/-! ## C2 — the new-entity existence guard

On a schema with hash and range key, the overwriting assignment
`params.ConditionExpression = (params.ConditionExpression) ? ' AND ' : ''`
discards the hash-key clause before the range-key clause is appended: the
put request's condition is the malformed `" AND attribute_not_exists(#sk)"`
and no longer requires the hash-key attribute to be absent. -/

/-- C2: the put request built for a New entity on a hash+range schema does
*not* carry the hash-key `attribute_not_exists` clause — only the
range-key clause, behind a dangling `AND`. -/
theorem save_new_entity_range_key_drops_hash_guard :
    ∃ p, save demoDeps demoS2 demoData2 demoData2 true 0 = .ok p ∧
      p.ConditionExpression = some " AND attribute_not_exists(#sk)" ∧
      ¬ ("attribute_not_exists(#id)".toList <:+:
          " AND attribute_not_exists(#sk)".toList) := by
  refine ⟨_, rfl, rfl, by decide⟩

/-! ## C10 — constructor defaults replace falsy values -/

theorem applyDefaultsStep_eq (now : Int) (d : Obj) (kp : String × PropDesc) :
    applyDefaultsStep now d kp =
      if !truthy (Obj.get d kp.1) && kp.2.default.isSome then
        Obj.set d kp.1 (defaultValueOf kp.2 now)
      else d := by
  simp only [applyDefaultsStep, defaultValueOf]
  cases hb : (!truthy (Obj.get d kp.1) && kp.2.default.isSome) <;>
    simp [hb, apply_ite (Obj.set d kp.1)]

theorem applyDefaultsStep_get_other (now : Int) (d : Obj) (kp : String × PropDesc)
    (k : String) (h : kp.1 ≠ k) :
    Obj.get (applyDefaultsStep now d kp) k = Obj.get d k := by
  rw [applyDefaultsStep_eq]
  split
  · exact Obj.get_set_other d kp.1 k _ h
  · rfl

theorem applyDefaults_not_mem :
    ∀ (props : List (String × PropDesc)) (data : Obj) (now : Int) (k : String),
      k ∉ props.map (·.1) →
      Obj.get (applyDefaults props data now) k = Obj.get data k
  | [], _, _, _, _ => rfl
  | kp :: rest, data, now, k, h => by
    have h1 : kp.1 ≠ k := by
      intro he; exact h (by simp [he])
    have h2 : k ∉ rest.map (·.1) := by
      intro he; exact h (by simp [he])
    rw [show applyDefaults (kp :: rest) data now =
      applyDefaults rest (applyDefaultsStep now data kp) now from rfl]
    rw [applyDefaults_not_mem rest _ now k h2,
      applyDefaultsStep_get_other now data kp k h1]

/-- C10: in the compiled entity constructor, every property with a
declared default takes that default whenever the supplied value is falsy
(which includes `0`, the empty string and `false`, not only
absent/undefined); for a string/date-time property with default `'now'`
the installed value is the current `Date`, and otherwise the declared
default (through `new Date(·)` for other date-time defaults). -/
theorem defaults_replace_falsy
    (props : List (String × PropDesc)) (data : Obj) (now : Int)
    (k : String) (prop : PropDesc)
    (hnodup : (props.map (·.1)).Nodup)
    (hmem : (k, prop) ∈ props)
    (hdef : prop.default.isSome = true)
    (hfalsy : truthy (Obj.get data k) = false) :
    Obj.get (applyDefaults props data now) k = defaultValueOf prop now := by
  induction props generalizing data with
  | nil => cases hmem
  | cons kp rest ih =>
    rw [show applyDefaults (kp :: rest) data now =
      applyDefaults rest (applyDefaultsStep now data kp) now from rfl]
    rw [List.map_cons] at hnodup
    have hnd1 := (List.nodup_cons.mp hnodup).1
    have hnd2 := (List.nodup_cons.mp hnodup).2
    rcases List.mem_cons.mp hmem with heq | hmem2
    · obtain rfl := heq.symm
      have hstep : applyDefaultsStep now data (k, prop) =
          Obj.set data k (defaultValueOf prop now) := by
        rw [applyDefaultsStep_eq]
        simp [hfalsy, hdef]
      rw [hstep, applyDefaults_not_mem rest _ now k hnd1, Obj.get_set_self]
    · have hne : kp.1 ≠ k := by
        intro he
        have hmemk : k ∈ rest.map (·.1) :=
          List.mem_map_of_mem (·.1) hmem2
        exact hnd1 (he ▸ hmemk)
      have hget := applyDefaultsStep_get_other now data kp k hne
      exact ih (applyDefaultsStep now data kp) hnd2 hmem2
        (by rw [hget]; exact hfalsy)

/-- Witness for C10 at the falsy inputs `0`, `''` and `false`: each
default lands, with `'now'` becoming the current `Date`. -/
theorem defaults_replace_falsy_witness :
    Obj.get (applyDefaults demoDefProps demoDefData 5) "a" = .num 7 ∧
    Obj.get (applyDefaults demoDefProps demoDefData 5) "b" = .str "x" ∧
    Obj.get (applyDefaults demoDefProps demoDefData 5) "c" = .date 5 := by
  have m1 : ("a", ({ type := some "integer", default := some (.num 7) } : PropDesc))
      ∈ demoDefProps := by
    unfold demoDefProps; exact List.Mem.head _
  have m2 : ("b", ({ type := some "string", default := some (.str "x") } : PropDesc))
      ∈ demoDefProps := by
    unfold demoDefProps; exact List.Mem.tail _ (List.Mem.head _)
  have m3 : ("c",
      ({ type := some "string", format := some "date-time",
         default := some (.str "now") } : PropDesc)) ∈ demoDefProps := by
    unfold demoDefProps; exact List.Mem.tail _ (List.Mem.tail _ (List.Mem.head _))
  refine ⟨?_, ?_, ?_⟩
  · exact (defaults_replace_falsy demoDefProps demoDefData 5 "a" _
      (by decide) m1 rfl rfl).trans rfl
  · exact (defaults_replace_falsy demoDefProps demoDefData 5 "b" _
      (by decide) m2 rfl rfl).trans rfl
  · exact (defaults_replace_falsy demoDefProps demoDefData 5 "c" _
      (by decide) m3 rfl rfl).trans rfl

/-! ## Static update lemmas (C9, C1) -/

theorem get_foldl_del_not_mem :
    ∀ (ks : List String) (o : Obj) (k : String), k ∉ ks →
      Obj.get (ks.foldl (fun b k => Obj.del b k) o) k = Obj.get o k
  | [], _, _, _ => rfl
  | k0 :: rest, o, k, h => by
    have h0 : k0 ≠ k := fun he => h (by simp [he])
    have h1 : k ∉ rest := fun he => h (by simp [he])
    rw [List.foldl_cons, get_foldl_del_not_mem rest _ k h1,
      Obj.get_del_other o k0 k h0]

theorem keys_foldl_del_nodup :
    ∀ (ks : List String) (o : Obj), (Obj.keys o).Nodup →
      (Obj.keys (ks.foldl (fun b k => Obj.del b k) o)).Nodup
  | [], _, h => h
  | k0 :: rest, o, h => by
    rw [List.foldl_cons]
    exact keys_foldl_del_nodup rest _ (Obj.keys_del_nodup o k0 h)

theorem get_foldl_del_mem :
    ∀ (ks : List String) (o : Obj) (k : String), (Obj.keys o).Nodup → k ∈ ks →
      Obj.get (ks.foldl (fun b k => Obj.del b k) o) k = .undef
  | [], _, _, _, hm => absurd hm (List.not_mem_nil _)
  | k0 :: rest, o, k, hn, hm => by
    rw [List.foldl_cons]
    by_cases hr : k ∈ rest
    · exact get_foldl_del_mem rest _ k (Obj.keys_del_nodup o k0 hn) hr
    · have hk : k = k0 := by
        rcases List.mem_cons.mp hm with h | h
        · exact h
        · exact absurd h hr
      subst hk
      rw [get_foldl_del_not_mem rest _ k hr]
      exact Obj.get_del_self o k hn

theorem lookup_append_some {α β : Type} [BEq α] (a : α) :
    ∀ (l1 : List (α × β)) (l2 : List (α × β)) (x : β),
      l1.lookup a = some x → (l1 ++ l2).lookup a = some x
  | [], _, _, h => by cases h
  | (k0, v0) :: rest, l2, x, h => by
    rw [List.cons_append]
    rw [List.lookup] at h ⊢
    cases hk : (a == k0) with
    | true => rw [hk] at h; exact h
    | false => rw [hk] at h; exact lookup_append_some a rest l2 x h

/-- The mutated verb body the core returns: the version entry deleted,
then every attribute named by the key object deleted. -/
theorem staticUpdateCore_snd (s : SchemaM) (key : Obj) (ue0 : String)
    (fs : List (String × JsVal)) (now : Int) (v : String)
    (hv : s.version = some v) :
    (staticUpdateCore s key ue0 fs now).2 =
      (Obj.keys key).foldl (fun b k => Obj.del b k) (Obj.del fs v) := by
  simp only [staticUpdateCore, hv]

/-- The built request: the version clause seeds the expression, the
substitution maps and the optional optimistic-lock condition, after which
one clause per surviving body entry is appended. -/
theorem staticUpdateCore_fst (s : SchemaM) (key : Obj) (ue0 : String)
    (fs : List (String × JsVal)) (now : Int) (v : String)
    (hv : s.version = some v) :
    (staticUpdateCore s key ue0 fs now).1 =
      ((Obj.keys key).foldl (fun b k => Obj.del b k) (Obj.del fs v)).foldl
        updClauseStep
        { TableName := s.tableName, Key := key,
          UpdateExpression := ue0 ++ "#" ++ v ++ " = :" ++ v,
          ExpressionAttributeNames := [("#" ++ v, v)],
          ExpressionAttributeValues :=
            if truthy (Obj.get fs v) then
              [(":" ++ v, JsVal.num now), (":" ++ v ++ "Old", Obj.get fs v)]
            else [(":" ++ v, JsVal.num now)],
          ConditionExpression :=
            if truthy (Obj.get fs v) then
              some ("#" ++ v ++ " = :" ++ v ++ "Old")
            else none } := by
  simp only [staticUpdateCore, hv]
  cases htr : truthy (Obj.get fs v) <;> simp [htr]

/-- Fields of the request after the per-entry clause fold: the condition
is untouched, the substitution maps extend in order, the expression only
grows on the right. -/
theorem updClause_foldl_fields :
    ∀ (body : List (String × JsVal)) (st : UpdateParams),
      (body.foldl updClauseStep st).ConditionExpression =
        st.ConditionExpression ∧
      (body.foldl updClauseStep st).ExpressionAttributeValues =
        st.ExpressionAttributeValues ++
          body.map (fun kv => (":" ++ kv.1, kv.2)) ∧
      (body.foldl updClauseStep st).ExpressionAttributeNames =
        st.ExpressionAttributeNames ++
          body.map (fun kv => ("#" ++ kv.1, kv.1)) ∧
      ∃ r, (body.foldl updClauseStep st).UpdateExpression =
        st.UpdateExpression ++ r
  | [], st => ⟨rfl, by simp, by simp, ⟨"", by simp⟩⟩
  | kv :: rest, st => by
    have ih := updClause_foldl_fields rest (updClauseStep st kv)
    refine ⟨?_, ?_, ?_, ?_⟩
    · rw [List.foldl_cons, ih.1]; rfl
    · rw [List.foldl_cons, ih.2.1]
      simp [updClauseStep]
    · rw [List.foldl_cons, ih.2.2.1]
      simp [updClauseStep]
    · obtain ⟨r, hr⟩ := ih.2.2.2
      refine ⟨(if st.ExpressionAttributeNames.length != 0 then ", " else "") ++
        "#" ++ kv.1 ++ " = :" ++ kv.1 ++ r, ?_⟩
      rw [List.foldl_cons, hr]
      simp [updClauseStep, String.append_assoc]

/-- The wiring of `staticUpdate` for a found verb with an object body. -/
theorem staticUpdate_eq (s : SchemaM) (key update : Obj) (now : Int)
    (t : String) (fs : List (String × JsVal))
    (ht : ["$SET", "$ADD", "$DELETE"].find?
      (fun x => truthy (Obj.get update x)) = some t)
    (hb : Obj.get update t = .obj fs) :
    staticUpdate s key update now =
      .ok ((staticUpdateCore s key (verbPrefix t) fs now).1,
           Obj.set update t (.obj (staticUpdateCore s key (verbPrefix t) fs now).2)) := by
  have hm := List.mem_of_find?_eq_some ht
  simp only [List.mem_cons, List.not_mem_nil, or_false] at hm
  rcases hm with rfl | rfl | rfl <;>
    · simp only [staticUpdate, ht, hb, verbPrefix]
      rfl

/-! ## C9 — static update mutates the caller's update spec -/

/-- C9: when a version attribute exists and the update spec carries an
object verb body, `update` deletes the version entry and every entry
named by the caller's key object from that body *in place*: the returned
(mutated) spec's body no longer holds them, while every other entry
survives unchanged. -/
theorem update_mutates_update_spec
    (s : SchemaM) (key update : Obj) (now : Int) (t v : String)
    (fs : List (String × JsVal))
    (hv : s.version = some v)
    (hn : (Obj.keys fs).Nodup)
    (ht : ["$SET", "$ADD", "$DELETE"].find?
      (fun x => truthy (Obj.get update x)) = some t)
    (hb : Obj.get update t = .obj fs) :
    ∃ p B, staticUpdate s key update now = .ok (p, Obj.set update t (.obj B)) ∧
      Obj.get B v = .undef ∧
      (∀ k0, k0 ∈ Obj.keys key → Obj.get B k0 = .undef) ∧
      (∀ k0, k0 ≠ v → k0 ∉ Obj.keys key → Obj.get B k0 = Obj.get fs k0) := by
  have hwire := staticUpdate_eq s key update now t fs ht hb
  have hsnd := staticUpdateCore_snd s key (verbPrefix t) fs now v hv
  refine ⟨(staticUpdateCore s key (verbPrefix t) fs now).1,
    (staticUpdateCore s key (verbPrefix t) fs now).2, hwire, ?_, ?_, ?_⟩
  · rw [hsnd]
    by_cases hvk : v ∈ Obj.keys key
    · exact get_foldl_del_mem _ _ _ (Obj.keys_del_nodup fs v hn) hvk
    · rw [get_foldl_del_not_mem _ _ _ hvk]
      exact Obj.get_del_self fs v hn
  · intro k0 hk0
    rw [hsnd]
    exact get_foldl_del_mem _ _ _ (Obj.keys_del_nodup fs v hn) hk0
  · intro k0 hne hnk
    rw [hsnd, get_foldl_del_not_mem _ _ _ hnk]
    exact Obj.get_del_other fs v k0 (fun he => hne he.symm)

/-- Witness for C9: on the scenario schema, a `$SET` body holding email,
version and the key attribute id keeps only email after the call. -/
theorem update_mutates_update_spec_witness :
    ∃ p B, staticUpdate demoUserS demoKeyU demoUpd9 1000 =
        .ok (p, Obj.set demoUpd9 "$SET" (.obj B)) ∧
      Obj.get B "version" = .undef ∧
      Obj.get B "id" = .undef ∧
      Obj.get B "email" = .str "b@x.com" := by
  obtain ⟨p, B, h1, h2, h3, h4⟩ :=
    update_mutates_update_spec demoUserS demoKeyU demoUpd9 1000 "$SET" "version"
      [("email", .str "b@x.com"), ("version", .num 1), ("id", .str "zz")]
      rfl (by decide) rfl rfl
  exact ⟨p, B, h1, h2, h3 "id" (by decide),
    (h4 "email" (by decide) (by decide)).trans rfl⟩

/-! ## C1 — static update and the version attribute

The claim's scenario expects an integer version of `1` to advance to `2`.
The source always writes `Date.now()` into the version attribute of the
update body, for every version type: the stored version becomes the
current epoch milliseconds, never `orig + 1`. -/

/-- C1 counterexample: the scenario
`update({id:"u1"}, {$SET:{email:"b@x.com"}})` at clock reading 1000
against the stored row `{id:"u1", version:1, email:"a@x.com"}` produces a
stored version of `1000` — the clock value — and not `2`. -/
theorem update_integer_version_not_incremented :
    ∃ p u2 stored2,
      staticUpdate demoUserS demoKeyU demoUpd 1000 = .ok (p, u2) ∧
      applyUpdate demoStored p = .ok stored2 ∧
      Obj.get stored2 "email" = .str "b@x.com" ∧
      Obj.get stored2 "version" = .num 1000 ∧
      Obj.get stored2 "version" ≠ .num 2 := by
  refine ⟨_, _, _, rfl, rfl, rfl, rfl, ?_⟩
  exact fun h => JsVal.noConfusion h (fun h2 => absurd h2 (by decide))

/-- C1 (amended): whenever a version attribute `v` exists and the update
spec carries an object verb body, the built request always writes
`Date.now()` (the current time) into `v` — also for an integer-typed
version, which is *not* incremented — via a leading `#v = :v` clause with
`:v ↦ now`; when the caller supplied a truthy expected prior value the
request carries the equality condition `#v = :vOld` against it, and
otherwise no condition. -/
theorem update_sets_version_to_now
    (s : SchemaM) (key update : Obj) (now : Int) (t v : String)
    (fs : List (String × JsVal))
    (hv : s.version = some v)
    (ht : ["$SET", "$ADD", "$DELETE"].find?
      (fun x => truthy (Obj.get update x)) = some t)
    (hb : Obj.get update t = .obj fs) :
    ∃ p u2, staticUpdate s key update now = .ok (p, u2) ∧
      p.ExpressionAttributeValues.lookup (":" ++ v) = some (.num now) ∧
      p.ExpressionAttributeNames.lookup ("#" ++ v) = some v ∧
      (∃ r, p.UpdateExpression = verbPrefix t ++ "#" ++ v ++ " = :" ++ v ++ r) ∧
      (truthy (Obj.get fs v) = true →
        p.ConditionExpression = some ("#" ++ v ++ " = :" ++ v ++ "Old") ∧
        p.ExpressionAttributeValues.lookup (":" ++ v ++ "Old") =
          some (Obj.get fs v)) ∧
      (truthy (Obj.get fs v) = false → p.ConditionExpression = none) := by
  have hwire := staticUpdate_eq s key update now t fs ht hb
  have hfst := staticUpdateCore_fst s key (verbPrefix t) fs now v hv
  have hfold := updClause_foldl_fields
    ((Obj.keys key).foldl (fun b k => Obj.del b k) (Obj.del fs v))
    { TableName := s.tableName, Key := key,
      UpdateExpression := verbPrefix t ++ "#" ++ v ++ " = :" ++ v,
      ExpressionAttributeNames := [("#" ++ v, v)],
      ExpressionAttributeValues :=
        if truthy (Obj.get fs v) then
          [(":" ++ v, JsVal.num now), (":" ++ v ++ "Old", Obj.get fs v)]
        else [(":" ++ v, JsVal.num now)],
      ConditionExpression :=
        if truthy (Obj.get fs v) then
          some ("#" ++ v ++ " = :" ++ v ++ "Old")
        else none }
  refine ⟨(staticUpdateCore s key (verbPrefix t) fs now).1, _, hwire,
    ?_, ?_, ?_, ?_, ?_⟩
  · rw [hfst, hfold.2.1]
    apply lookup_append_some
    cases htr : truthy (Obj.get fs v) <;> simp [htr, List.lookup]
  · rw [hfst, hfold.2.2.1]
    apply lookup_append_some
    simp [List.lookup]
  · obtain ⟨r, hr⟩ := hfold.2.2.2
    refine ⟨r, ?_⟩
    rw [hfst, hr]
  · intro htr
    constructor
    · rw [hfst, hfold.1]
      simp [htr]
    · rw [hfst, hfold.2.1]
      apply lookup_append_some
      simp only [htr, if_true]
      have hne : ¬ ((":" ++ v ++ "Old") = (":" ++ v)) := by
        intro h
        have h2 := congrArg String.length h
        simp [String.length_append] at h2
        exact absurd h2 (by decide)
      have hbe : ((":" ++ v ++ "Old") == (":" ++ v)) = false :=
        beq_eq_false_iff_ne.mpr hne
      rw [List.lookup, hbe, List.lookup]
      simp
  · intro htr
    rw [hfst, hfold.1]
    simp [htr]

/-- Witness for C1 (amended): the scenario instantiated — the request
writes `:version ↦ 1000`, and applying it to the stored row yields email
`b@x.com` with version `1000`. -/
theorem update_sets_version_to_now_witness :
    (∃ p u2, staticUpdate demoUserS demoKeyU demoUpd 1000 = .ok (p, u2) ∧
       p.ExpressionAttributeValues.lookup ":version" = some (.num 1000)) ∧
    (∃ p u2 stored2,
       staticUpdate demoUserS demoKeyU demoUpd 1000 = .ok (p, u2) ∧
       applyUpdate demoStored p = .ok stored2 ∧
       Obj.get stored2 "email" = .str "b@x.com" ∧
       Obj.get stored2 "version" = .num 1000) := by
  constructor
  · obtain ⟨p, u2, h1, h2, _⟩ :=
      update_sets_version_to_now demoUserS demoKeyU demoUpd 1000 "$SET" "version"
        [("email", .str "b@x.com")] rfl rfl rfl
    exact ⟨p, u2, h1, h2⟩
  · exact ⟨_, _, _, rfl, rfl, rfl, rfl⟩

/-! ## C3 — unique-index enforcement in `save()` -/

theorem relLoop_noRefs (deps : SaveDeps) (now : Int) :
    ∀ (props : List (String × PropDesc)) (data : Obj),
      (∀ kp ∈ props, kp.2.ref = none) →
      relLoop deps now props data = .ok data
  | [], _, _ => rfl
  | (propName, prop) :: rest, data, h => by
    have hr : prop.ref = none := h (propName, prop) (List.Mem.head _)
    have ht := relLoop_noRefs deps now rest data
      (fun kp hm => h kp (List.Mem.tail _ hm))
    by_cases hc : truthy (Obj.get data propName)
    · simp [relLoop, hc, hr, ht]
    · simp [relLoop, hc, ht]

/-- C3: on a schema (without relation properties) declaring one unique
index, once a record matching the saved entity's unique hash value is in
the store — e.g. the first of two entities sharing that value — `save()`
of the second entity fails with the unique-constraint violation: the
key-conditioned query against the index reports a nonzero `Count`, and
`save` throws `DynormError('Unique index constraint ' + name)`.  The
store's query semantics is modelled from the spec (`specQueryCount`); the
two `strSplit` hypotheses say the index's hash attribute is a plain
identifier (no ` AND ` or ` = ` inside its name). -/
theorem save_unique_index_violation
    (s : SchemaM) (dataS orig firstRec : Obj) (records : List Obj)
    (getI : String → Obj → Option Obj) (val : Obj → Bool)
    (sch : String → Option SchemaM) (now : Int)
    (k : String) (index : IndexDesc) (propU : PropDesc)
    (hnoref : ∀ kp ∈ s.properties, kp.2.ref = none)
    (hval : val dataS = true)
    (hidx : s.indexes = [(k, index)])
    (huniq : index.unique = true)
    (hrange : index.rangeKey = none)
    (hprop : s.properties.lookup index.hashKey = some propU)
    (hpref : propU.ref = none)
    (htr : truthy (Obj.get dataS index.hashKey) = true)
    (hsane1 : strSplit " AND " ("#" ++ index.hashKey ++ " = :" ++ index.hashKey) =
      ["#" ++ index.hashKey ++ " = :" ++ index.hashKey])
    (hsane2 : strSplit " = " ("#" ++ index.hashKey ++ " = :" ++ index.hashKey) =
      ["#" ++ index.hashKey, ":" ++ index.hashKey])
    (hmem : firstRec ∈ records)
    (hbeq : JsVal.beq (Obj.get firstRec index.hashKey)
      (Obj.get dataS index.hashKey) = true) :
    save { getItem := getI, queryCount := specQueryCount records,
           validate := val, schemas := sch } s dataS orig true now =
      .error (.dynorm ("Unique index constraint " ++ k)) := by
  have h1 : relLoop { getItem := getI, queryCount := specQueryCount records,
                      validate := val, schemas := sch }
      now s.properties dataS = .ok dataS :=
    relLoop_noRefs _ now s.properties dataS hnoref
  have hcount : specQueryCount records
      { TableName := s.tableName, IndexName := some k,
        KeyConditionExpression :=
          some ("#" ++ index.hashKey ++ " = :" ++ index.hashKey),
        ExpressionAttributeNames := [("#" ++ index.hashKey, index.hashKey)],
        ExpressionAttributeValues :=
          [(":" ++ index.hashKey, Obj.get dataS index.hashKey)] } ≠ 0 := by
    simp only [specQueryCount, hsane1]
    intro h0
    rw [Int.natCast_eq_zero, List.length_eq_zero] at h0
    have hnp := List.filter_eq_nil.mp h0 firstRec hmem
    apply hnp
    simp only [List.all_cons, List.all_nil, parseRefPair, hsane2, List.lookup,
      beq_self_eq_true]
    simp [hbeq]
  have h2 : uniqueLoop { getItem := getI, queryCount := specQueryCount records,
                         validate := val, schemas := sch }
      s dataS true s.indexes =
      .error (.dynorm ("Unique index constraint " ++ k)) := by
    rw [hidx]
    simp only [uniqueLoop, huniq, hprop, hpref, htr, hrange, Bool.not_true,
      uniqueQuery]
    have hb : (specQueryCount records
        { TableName := s.tableName, IndexName := some k,
          KeyConditionExpression :=
            some ("#" ++ index.hashKey ++ " = :" ++ index.hashKey),
          ExpressionAttributeNames := [("#" ++ index.hashKey, index.hashKey)],
          ExpressionAttributeValues :=
            [(":" ++ index.hashKey, Obj.get dataS index.hashKey)] } != 0) = true :=
      bne_iff_ne.mpr hcount
    simp [hb]
  simp only [save, h1]
  simp only [hval, Bool.not_true, Bool.false_eq_true, if_false]
  rw [h2]

/-- Witness for C3: the spec scenario — after `User{id:"u1",
email:"a@x.com"}` is stored, saving the new `User{id:"u2",
email:"a@x.com"}` fails with the unique-constraint violation of the
`emailIdx` index. -/
theorem save_unique_index_violation_witness :
    save { getItem := fun _ _ => none,
           queryCount := specQueryCount demoRecords,
           validate := fun _ => true, schemas := fun _ => none }
      demoU3 demoDataS demoDataS true 0 =
      .error (.dynorm "Unique index constraint emailIdx") := by
  have hm : [("id", JsVal.str "u1"), ("email", JsVal.str "a@x.com")]
      ∈ demoRecords := by
    unfold demoRecords; exact List.Mem.head _
  have hnoref : ∀ kp ∈ demoU3.properties, kp.2.ref = none := by
    intro kp hmem
    simp [demoU3] at hmem
    rcases hmem with h | h <;> simp [h]
  exact save_unique_index_violation demoU3 demoDataS demoDataS
    [("id", .str "u1"), ("email", .str "a@x.com")] demoRecords
    (fun _ _ => none) (fun _ => true) (fun _ => none) 0
    "emailIdx" { hashKey := "email", unique := true } { type := some "string" }
    hnoref rfl rfl rfl rfl rfl rfl rfl rfl rfl hm rfl

/-! ## C5 — pagination limit accounting

The source decrements `params.Limit` by `data.Items.length` *after*
`data.Items` has been reassigned by the filter (and map) steps, so with a
filter the decrement is the post-filter count — not "the number of items
fetched from the store" as the claim (including its filter sentence)
states.  `specFindFetched` transcribes the claim, `specFindKept` the
amendment; the code refines the latter and disagrees with the former. -/

/-- C5 counterexample: a first page fetching three items of which the
filter keeps one, under `Limit = 2`.  The claim's accounting decrements by
3 and stops with the continuation token retained after one page; the code
decrements by 1 and fetches the second page, so the two accumulators
differ. -/
theorem find_limit_decrement_counterexample :
    Model.find demoPages { Limit := some 2 } { filter := some demoFilter } {} ≠
      .ok (specFindFetched demoPages (some 2) (some demoFilter) {}) := by
  intro h
  have h2 := congrArg (fun r : Except DynError FindAcc =>
    match r with
    | .ok a => a.Count
    | .error _ => none) h
  exact absurd (Option.some.inj h2) (by decide)

/-- C5 (amended): without map/reduce, `Model.find` computes exactly the
spec-worded pagination in which each page decrements the Limit by the
number of items remaining *after the filter* (equal to the fetched count
only when no filter is supplied); recursion continues while the store
returns a continuation token and the Limit is absent or still positive,
and otherwise the final token is retained on the accumulator. -/
theorem find_eq_specFindKept :
    ∀ (pages : List Page) (limit : Option Int) (esk : Option Obj)
      (filt : Option (Obj → Bool)) (iv : JsVal) (acc : FindAcc),
      Model.find pages { Limit := limit, ExclusiveStartKey := esk }
        { filter := filt, map := none, reduce := none, initialValue := iv } acc =
        .ok (specFindKept pages limit filt acc)
  | [], limit, esk, filt, iv, acc => rfl
  | page :: rest, limit, esk, filt, iv, acc => by
    rw [Model.find, specFindKept.eq_def]
    simp only [Option.isSome_none, Bool.false_and, Bool.and_false,
      Bool.false_eq_true, if_false]
    cases hlek : page.LastEvaluatedKey with
    | none =>
      cases limit <;> simp
    | some lek =>
      cases limit with
      | none =>
        exact find_eq_specFindKept rest none (some lek) filt iv _
      | some l =>
        cases hl : (l != 0) with
        | true =>
          simp only [hl, eq_self_iff_true, if_true]
          by_cases hpos : l - ((match filt with
              | some f => page.Items.filter f
              | none => page.Items).length : Int) > 0
          · rw [if_pos hpos, if_pos hpos]
            exact find_eq_specFindKept rest _ (some lek) filt iv _
          · rw [if_neg hpos, if_neg hpos]
        | false =>
          simp only [hl, Bool.false_eq_true, if_false]
          by_cases hpos : l > 0
          · rw [if_pos hpos, if_pos hpos]
            exact find_eq_specFindKept rest _ (some lek) filt iv _
          · rw [if_neg hpos, if_neg hpos]

/-- Witness for C5 (amended) at the counterexample's input: the code's
run coincides with the post-filter accounting. -/
theorem find_eq_specFindKept_witness :
    Model.find demoPages { Limit := some 2 } { filter := some demoFilter } {} =
      .ok (specFindKept demoPages (some 2) (some demoFilter) {}) :=
  find_eq_specFindKept demoPages (some 2) none (some demoFilter) .undef {}

/-! ## C8 — bulk get: chunking and merging -/

theorem chunksOf_flatten {α : Type} (n : Nat) (l : List α) :
    (chunksOf n l).flatten = l := by
  induction l using chunksOf.induct n with
  | case1 => rw [chunksOf]; rfl
  | case2 x xs ih =>
    rw [chunksOf]
    simp only [List.flatten_cons, ih, List.cons_append, List.take_append_drop]

theorem chunksOf_le {α : Type} (n : Nat) (hn : 1 ≤ n) (l : List α) :
    ∀ c ∈ chunksOf n l, c.length ≤ n := by
  induction l using chunksOf.induct n with
  | case1 => rw [chunksOf]; intro c hc; cases hc
  | case2 x xs ih =>
    rw [chunksOf]
    intro c hc
    rcases List.mem_cons.mp hc with rfl | hc
    · simp only [List.length_cons, List.length_take]
      omega
    · exact ih c hc

theorem chunksOf_count {α : Type} (n : Nat) (hn : 1 ≤ n) (l : List α) :
    (chunksOf n l).length = (l.length + (n - 1)) / n := by
  induction l using chunksOf.induct n with
  | case1 =>
    rw [chunksOf]
    simp only [List.length_nil, Nat.zero_add]
    exact (Nat.div_eq_of_lt (by omega)).symm
  | case2 x xs ih =>
    rw [chunksOf]
    simp only [List.length_cons, ih, List.length_drop]
    by_cases hle : n - 1 ≤ xs.length
    · have h1 : xs.length - (n - 1) + (n - 1) = xs.length := by omega
      rw [h1]
      have h2 : xs.length + 1 + (n - 1) = xs.length + n := by omega
      rw [h2, Nat.add_div_right _ (by omega)]
    · have h1 : xs.length - (n - 1) + (n - 1) = n - 1 := by omega
      rw [h1]
      have h2 : xs.length + 1 + (n - 1) = xs.length + n := by omega
      rw [h2]
      have h3 : (xs.length + n) / n = 1 := by
        apply Nat.div_eq_of_lt_le <;> omega
      rw [h3, Nat.div_eq_of_lt (by omega)]

theorem alistSet_lookup_self {α : Type} :
    ∀ (a : List (String × α)) (k : String) (v : α),
      (alistSet a k v).lookup k = some v
  | [], k, v => by simp [alistSet, List.lookup]
  | (k0, v0) :: rest, k, v => by
    by_cases h : k0 = k
    · subst h
      simp [alistSet, List.lookup]
    · have hb : (k == k0) = false := beq_eq_false_iff_ne.mpr (fun he => h he.symm)
      simp only [alistSet, if_neg h, List.lookup, hb]
      exact alistSet_lookup_self rest k v

theorem alistSet_lookup_other {α : Type} :
    ∀ (a : List (String × α)) (k0 k : String) (v : α), k0 ≠ k →
      (alistSet a k0 v).lookup k = a.lookup k
  | [], k0, k, v, h => by
    have hb : (k == k0) = false := beq_eq_false_iff_ne.mpr (fun he => h he.symm)
    simp [alistSet, List.lookup, hb]
  | (k1, v1) :: rest, k0, k, v, h => by
    by_cases h1 : k1 = k0
    · subst h1
      have hb : (k == k1) = false := beq_eq_false_iff_ne.mpr (fun he => h he.symm)
      simp [alistSet, List.lookup, hb]
    · simp only [alistSet, if_neg h1, List.lookup]
      cases hk : (k == k1)
      · exact alistSet_lookup_other rest k0 k v h
      · rfl

theorem tableConcat_cons_self (t : String) (items : List Obj)
    (rest : List (String × List Obj)) :
    tableConcat t ((t, items) :: rest) = items ++ tableConcat t rest := by
  simp [tableConcat]

theorem tableConcat_cons_other (t t0 : String) (items : List Obj)
    (rest : List (String × List Obj)) (h : t0 ≠ t) :
    tableConcat t ((t0, items) :: rest) = tableConcat t rest := by
  have hb : (t0 == t) = false := beq_eq_false_iff_ne.mpr h
  simp [tableConcat, hb]

theorem mergeResp_lookup (t : String) :
    ∀ (b a : List (String × List Obj)) (cur : List Obj),
      a.lookup t = some cur →
      (mergeResp a b).lookup t = some (cur ++ tableConcat t b)
  | [], a, cur, h => by
    simp only [mergeResp, List.foldl_nil]
    rw [h]
    simp [tableConcat]
  | (t0, items) :: rest, a, cur, h => by
    rw [show mergeResp a ((t0, items) :: rest) =
      mergeResp (match a.lookup t0 with
        | some c => alistSet a t0 (c ++ items)
        | none => a ++ [(t0, items)]) rest from rfl]
    by_cases ht0 : t0 = t
    · subst ht0
      rw [h, tableConcat_cons_self]
      have := mergeResp_lookup t0 rest (alistSet a t0 (cur ++ items))
        (cur ++ items) (alistSet_lookup_self a t0 (cur ++ items))
      rw [this, List.append_assoc]
    · rw [tableConcat_cons_other t t0 items rest ht0]
      cases hl : a.lookup t0 with
      | some c =>
        exact mergeResp_lookup t rest _ cur
          ((alistSet_lookup_other a t0 t (c ++ items) ht0).trans h)
      | none =>
        exact mergeResp_lookup t rest _ cur (lookup_append_some t a _ cur h)

theorem batchGet_no_unprocessed (r : BGResp) (rest : List BGResp)
    (req : List (String × List Obj)) (h : r.UnprocessedKeys = []) :
    Model.batchGet (r :: rest) req = (r.Responses, rest) := by
  simp [Model.batchGet, h]

theorem bgkLoop_lookup (t : String) :
    ∀ (chunks : List (List (String × Obj))) (script : List BGResp)
      (obj : List (String × List Obj)) (cur : List Obj),
      (∀ r ∈ script, r.UnprocessedKeys = []) →
      script.length = chunks.length →
      obj.lookup t = some cur →
      (bgkLoop script chunks obj).lookup t =
        some (cur ++ (script.map (fun r => tableConcat t r.Responses)).flatten)
  | [], script, obj, cur, hs, hlen, hobj => by
    have : script = [] := List.eq_nil_of_length_eq_zero hlen
    subst this
    simpa [bgkLoop] using hobj
  | c :: cs, script, obj, cur, hs, hlen, hobj => by
    cases script with
    | nil => cases hlen
    | cons r rs =>
      have hr : r.UnprocessedKeys = [] := hs r (List.Mem.head _)
      rw [show bgkLoop (r :: rs) (c :: cs) obj =
        bgkLoop (Model.batchGet (r :: rs) (buildReq c)).2 cs
          (mergeResp obj (Model.batchGet (r :: rs) (buildReq c)).1) from rfl]
      rw [batchGet_no_unprocessed r rs (buildReq c) hr]
      have hm := mergeResp_lookup t r.Responses obj cur hobj
      have := bgkLoop_lookup t cs rs (mergeResp obj r.Responses)
        (cur ++ tableConcat t r.Responses)
        (fun x hx => hs x (List.Mem.tail _ hx))
        (by simpa using hlen) hm
      rw [this, List.map_cons, List.flatten_cons, List.append_assoc]

/-- C8: the bulk get engine.  First, the chunking discipline: the chunks
partition the flattened keys, each chunk holds at most 100 keys, and the
loop issues exactly `⌈keys/100⌉` requests — one `batchGet` per chunk, so
250 keys yield exactly 3 requests.  Second, with the store answering each
chunk (no unprocessed keys), the per-table response arrays of all chunks
are merged into one collection, in order.  Third, when a response reports
unprocessed keys, exactly those are reissued and the retry's responses
are merged into the same collection. -/
theorem batchGetKeys_chunks_and_merge
    (t : String) (ks : List Obj) (script : List BGResp)
    (hs : ∀ r ∈ script, r.UnprocessedKeys = [])
    (hlen : script.length = (ks.length + 99) / 100) :
    (∀ (l : List (String × Obj)),
      (chunksOf 100 l).flatten = l ∧
      (∀ c ∈ chunksOf 100 l, c.length ≤ 100) ∧
      (chunksOf 100 l).length = (l.length + 99) / 100) ∧
    (Model.batchGetKeys script [(t, ks)]).lookup t =
      some ((script.map (fun r => tableConcat t r.Responses)).flatten) ∧
    (∀ (r1 r2 : BGResp) (req : List (String × List Obj)) (cur : List Obj),
      r1.UnprocessedKeys ≠ [] → r2.UnprocessedKeys = [] →
      r1.Responses.lookup t = some cur →
      (Model.batchGet [r1, r2] req).1.lookup t =
        some (cur ++ tableConcat t r2.Responses)) := by
  refine ⟨?_, ?_, ?_⟩
  · intro l
    exact ⟨chunksOf_flatten 100 l, chunksOf_le 100 (by omega) l,
      chunksOf_count 100 (by omega) l⟩
  · rw [show Model.batchGetKeys script [(t, ks)] =
      bgkLoop script
        (chunksOf 100
          (([(t, ks)].map (fun tk => tk.2.map (fun k => (tk.1, k)))).flatten))
        [(t, [])] from rfl]
    have hkeys :
        (([(t, ks)].map (fun tk => tk.2.map (fun k => (tk.1, k)))).flatten) =
          ks.map (fun k => (t, k)) := by
      simp
    rw [hkeys]
    have hchl : (chunksOf 100 (ks.map (fun k => (t, k)))).length =
        (ks.length + 99) / 100 := by
      have := chunksOf_count 100 (by omega) (ks.map (fun k => (t, k)))
      simpa using this
    have := bgkLoop_lookup t (chunksOf 100 (ks.map (fun k => (t, k)))) script
      [(t, [])] [] hs (by rw [hlen, hchl]) (by simp [List.lookup])
    simpa using this
  · intro r1 r2 req cur h1 h2 hcur
    have hb : (r1.UnprocessedKeys.length != 0) = true := by
      simp only [bne_iff_ne]
      intro h0
      exact h1 (List.eq_nil_of_length_eq_zero h0)
    rw [show Model.batchGet [r1, r2] req =
      (if (r1.UnprocessedKeys.length != 0) = true then
        (mergeResp r1.Responses (Model.batchGet [r2] r1.UnprocessedKeys).1,
         (Model.batchGet [r2] r1.UnprocessedKeys).2)
      else (r1.Responses, [r2])) from rfl]
    rw [if_pos hb, batchGet_no_unprocessed r2 [] _ h2]
    exact mergeResp_lookup t r2.Responses r1.Responses cur hcur

set_option maxRecDepth 4000 in
/-- Witness for C8: 250 keys against one table chunk into exactly 3
requests, and the three responses merge into one per-table collection. -/
theorem batchGetKeys_chunks_and_merge_witness :
    (chunksOf 100 (demoKeys250.map (fun k => ("T", k)))).length = 3 ∧
    (Model.batchGetKeys demoScript8 [("T", demoKeys250)]).lookup "T" =
      some ((demoScript8.map (fun r => tableConcat "T" r.Responses)).flatten) := by
  have hs : ∀ r ∈ demoScript8, r.UnprocessedKeys = [] := by
    intro r hr
    simp only [demoScript8, List.mem_cons, List.not_mem_nil, or_false] at hr
    rcases hr with h | h | h <;> simp [h]
  have hlen : demoScript8.length = (demoKeys250.length + 99) / 100 := by
    decide
  have h := batchGetKeys_chunks_and_merge "T" demoKeys250 demoScript8 hs hlen
  exact ⟨(h.1 (demoKeys250.map (fun k => ("T", k)))).2.2.trans (by decide),
    h.2.1⟩

end Dynorm

namespace Dynorm

theorem parseDynamo_get_not_name :
    ∀ (props : List (String × PropDesc)) (item m0 : Obj) (x : String),
      x ∉ props.map (·.1) →
      Obj.get (parseDynamoGo item props m0) x = Obj.get m0 x
  | [], _, _, _, _ => rfl
  | (k, prop) :: rest, item, m0, x, h => by
    have hkx : k ≠ x := fun he => h (by simp [he])
    have h2 : x ∉ rest.map (·.1) := fun he => h (by simp [he])
    rw [parseDynamoGo]
    cases hpr : prop.ref with
    | some rn =>
      cases h1 : truthy (Obj.get item k)
      · cases hj : prop.join with
        | nil =>
          simp only [h1, Bool.false_eq_true, if_false]
          exact parseDynamo_get_not_name rest item m0 x h2
        | cons cf rest2 =>
          obtain ⟨c, f⟩ := cf
          simp only [h1, Bool.false_eq_true, if_false]
          cases h3 : truthy (Obj.get item c)
          · simp only [h3, Bool.false_eq_true, if_false]
            exact parseDynamo_get_not_name rest item m0 x h2
          · simp only [h3, if_true]
            rw [parseDynamo_get_not_name rest item _ x h2,
              Obj.get_set_other m0 k x _ hkx]
      · simp only [h1, if_true]
        rw [parseDynamo_get_not_name rest item _ x h2,
          Obj.get_set_other m0 k x _ hkx]
    | none =>
      cases hv : Obj.get item k with
      | undef => exact parseDynamo_get_not_name rest item m0 x h2
      | _ =>
        cases hf : (prop.format == some "date-time" || prop.format == some "date") <;>
          simp only [hf, Bool.false_eq_true, if_false, if_true] <;>
          rw [parseDynamo_get_not_name rest item _ x h2,
            Obj.get_set_other m0 k x _ hkx]

end Dynorm

namespace Dynorm

theorem parseDynamo_get_name :
    ∀ (props : List (String × PropDesc)) (item m0 : Obj) (k : String)
      (prop : PropDesc),
      (props.map (·.1)).Nodup → (k, prop) ∈ props →
      Obj.get (parseDynamoGo item props m0) k =
        parseContrib item k prop (Obj.get m0 k)
  | [], _, _, _, _, _, hmem => absurd hmem (List.not_mem_nil _)
  | (k0, p0) :: rest, item, m0, k, prop, hnd, hmem => by
    rw [List.map_cons] at hnd
    have hnd1 := (List.nodup_cons.mp hnd).1
    have hnd2 := (List.nodup_cons.mp hnd).2
    rcases List.mem_cons.mp hmem with heq | hmem2
    · injection heq with h1 h2
      subst h1
      subst h2
      have hrest : k ∉ rest.map (·.1) := hnd1
      rw [parseDynamoGo, parseContrib.eq_def]
      cases hpr : prop.ref with
      | some rn =>
        cases h1 : truthy (Obj.get item k)
        · cases hj : prop.join with
          | nil =>
            simp only [h1, Bool.false_eq_true, if_false]
            exact parseDynamo_get_not_name rest item m0 k hrest
          | cons cf rest2 =>
            obtain ⟨c, f⟩ := cf
            simp only [h1, Bool.false_eq_true, if_false]
            cases h3 : truthy (Obj.get item c)
            · simp only [h3, Bool.false_eq_true, if_false]
              exact parseDynamo_get_not_name rest item m0 k hrest
            · simp only [h3, if_true]
              rw [parseDynamo_get_not_name rest item _ k hrest,
                Obj.get_set_self]
        · simp only [h1, if_true]
          rw [parseDynamo_get_not_name rest item _ k hrest, Obj.get_set_self]
      | none =>
        cases hv : Obj.get item k with
        | undef => exact parseDynamo_get_not_name rest item m0 k hrest
        | _ =>
          cases hf : (prop.format == some "date-time" ||
              prop.format == some "date") <;>
            simp only [hf, Bool.false_eq_true, if_false, if_true] <;>
            rw [parseDynamo_get_not_name rest item _ k hrest, Obj.get_set_self]
    · have hk0 : k0 ≠ k := by
        intro he
        exact hnd1 (he ▸ List.mem_map_of_mem (·.1) hmem2)
      have ihsame : ∀ m1 : Obj, Obj.get m1 k = Obj.get m0 k →
          Obj.get (parseDynamoGo item rest m1) k =
            parseContrib item k prop (Obj.get m0 k) := by
        intro m1 he
        rw [parseDynamo_get_name rest item m1 k prop hnd2 hmem2, he]
      rw [parseDynamoGo]
      cases hpr : p0.ref with
      | some rn =>
        cases h1 : truthy (Obj.get item k0)
        · cases hj : p0.join with
          | nil =>
            simp only [h1, Bool.false_eq_true, if_false]
            exact ihsame m0 rfl
          | cons cf rest2 =>
            obtain ⟨c, f⟩ := cf
            simp only [h1, Bool.false_eq_true, if_false]
            cases h3 : truthy (Obj.get item c)
            · simp only [h3, Bool.false_eq_true, if_false]
              exact ihsame m0 rfl
            · simp only [h3, if_true]
              exact ihsame _ (Obj.get_set_other m0 k0 k _ hk0)
        · simp only [h1, if_true]
          exact ihsame _ (Obj.get_set_other m0 k0 k _ hk0)
      | none =>
        cases hv : Obj.get item k0 with
        | undef => exact ihsame m0 rfl
        | _ =>
          cases hf : (p0.format == some "date-time" ||
              p0.format == some "date") <;>
            simp only [hf, Bool.false_eq_true, if_false, if_true] <;>
            exact ihsame _ (Obj.get_set_other m0 k0 k _ hk0)

end Dynorm

namespace Dynorm

theorem joinFold_get :
    ∀ (join : List (String × String)) (v : JsVal) (it out : Obj) (x : String),
      x ∉ join.map (·.1) →
      join.foldlM (fun it kv =>
        (JsVal.getMember v kv.2).map (fun fv => Obj.set it kv.1 fv)) it = .ok out →
      Obj.get out x = Obj.get it x
  | [], v, it, out, x, _, h => by
    cases h
    rfl
  | (c, f) :: rest, v, it, out, x, hx, h => by
    have hcx : c ≠ x := fun he => hx (by simp [he])
    have hrest : x ∉ rest.map (·.1) := fun he => hx (by simp [he])
    rw [List.foldlM_cons] at h
    cases hm : JsVal.getMember v f with
    | error e =>
      rw [hm] at h
      cases h
    | ok fv =>
      rw [hm] at h
      rw [joinFold_get rest v _ out x hrest h, Obj.get_set_other it c x fv hcx]

theorem joinFold_ok :
    ∀ (join : List (String × String)) (fs : List (String × JsVal)) (it : Obj),
      ∃ out, join.foldlM (fun it kv =>
        (JsVal.getMember (JsVal.obj fs) kv.2).map
          (fun fv => Obj.set it kv.1 fv)) it = .ok out
  | [], _, it => ⟨it, rfl⟩
  | (c, f) :: rest, fs, it => by
    obtain ⟨out, hout⟩ := joinFold_ok rest fs (Obj.set it c (Obj.get fs f))
    exact ⟨out, by rw [List.foldlM_cons]; exact hout⟩

theorem joinFold_single (c f : String) (fs : List (String × JsVal)) (it : Obj) :
    [(c, f)].foldlM (fun it kv =>
      (JsVal.getMember (JsVal.obj fs) kv.2).map
        (fun fv => Obj.set it kv.1 fv)) it =
      .ok (Obj.set it c (Obj.get fs f)) := rfl

end Dynorm

namespace Dynorm

theorem toDynamo_ok :
    ∀ (props : List (String × PropDesc)) (model item0 : Obj),
      (∀ kp ∈ props, kp.2.ref.isSome = true →
        Obj.get model kp.1 = .undef ∨ ∃ fs, Obj.get model kp.1 = .obj fs) →
      ∃ out, toDynamoGo model props item0 = .ok out
  | [], _, item0, _ => ⟨item0, rfl⟩
  | (k, prop) :: rest, model, item0, h => by
    have htail := fun it => toDynamo_ok rest model it
      (fun kp hm => h kp (List.Mem.tail _ hm))
    by_cases href : prop.ref.isSome = true
    · rcases h (k, prop) (List.Mem.head _) href with h0 | ⟨fs, h0⟩
      · rw [toDynamoGo, h0]
        exact htail item0
      · obtain ⟨rn, hpr⟩ := Option.isSome_iff_exists.mp href
        rw [toDynamoGo, h0]
        simp only [hpr]
        obtain ⟨it2, hit2⟩ := joinFold_ok prop.join fs item0
        rw [hit2]
        exact htail it2
    · have hpr : prop.ref = none := Option.not_isSome_iff_eq_none.mp href
      rw [toDynamoGo]
      cases hv : Obj.get model k
      all_goals try simp only [hpr]
      all_goals first
        | exact htail item0
        | exact htail _

end Dynorm

namespace Dynorm

theorem toDynamo_get_not_col :
    ∀ (props : List (String × PropDesc)) (model item0 out : Obj) (x : String),
      x ∉ (props.map propCols).flatten →
      toDynamoGo model props item0 = .ok out →
      Obj.get out x = Obj.get item0 x
  | [], _, item0, out, x, _, h => by
    cases h
    rfl
  | (k, prop) :: rest, model, item0, out, x, hx, h => by
    rw [List.map_cons, List.flatten_cons] at hx
    have hx1 : x ∉ propCols (k, prop) := fun he => hx (List.mem_append_left _ he)
    have hx2 : x ∉ (rest.map propCols).flatten :=
      fun he => hx (List.mem_append_right _ he)
    rw [toDynamoGo] at h
    revert h
    cases hpr : prop.ref with
    | some rn =>
      have hxj : x ∉ prop.join.map (·.1) := by
        simpa [propCols, hpr] using hx1
      cases hv : Obj.get model k
      case undef =>
        intro h
        exact toDynamo_get_not_col rest model item0 out x hx2 h
      all_goals
        simp only [hpr]
      all_goals
        intro h
      all_goals
        cases hj : (prop.join.foldlM (fun it kv =>
          (JsVal.getMember _ kv.2).map (fun fv => Obj.set it kv.1 fv)) item0) with
        | error e => rw [hj] at h; cases h
        | ok it2 =>
          rw [hj] at h
          rw [toDynamo_get_not_col rest model it2 out x hx2 h,
            joinFold_get prop.join _ item0 it2 x hxj hj]
    | none =>
      have hxk : k ≠ x := by
        intro he
        exact hx1 (by simp [propCols, hpr, he])
      cases hv : Obj.get model k
      case undef =>
        intro h
        exact toDynamo_get_not_col rest model item0 out x hx2 h
      case date ms =>
        intro h
        rw [toDynamo_get_not_col rest model _ out x hx2 h,
          Obj.get_set_other item0 k x _ hxk]
      all_goals
        intro h
      all_goals
        rw [toDynamo_get_not_col rest model _ out x hx2 h,
          Obj.get_set_other item0 k x _ hxk]

end Dynorm

namespace Dynorm

theorem toDynamo_get_scalar :
    ∀ (props : List (String × PropDesc)) (model item0 out : Obj)
      (k : String) (prop : PropDesc),
      ((props.map propCols).flatten).Nodup →
      (k, prop) ∈ props → prop.ref = none →
      toDynamoGo model props item0 = .ok out →
      Obj.get out k = (match Obj.get model k with
        | .undef => Obj.get item0 k
        | .date ms => .num ms
        | v => v)
  | [], _, _, _, _, _, _, hmem, _, _ => absurd hmem (List.not_mem_nil _)
  | (k0, p0) :: rest, model, item0, out, k, prop, hnd, hmem, hpr, h => by
    rw [List.map_cons, List.flatten_cons] at hnd
    have hdisj := (List.nodup_append.mp hnd).2.2
    rcases List.mem_cons.mp hmem with heq | hmem2
    · injection heq with h1 h2
      subst h1
      subst h2
      have hkrest : k ∉ (rest.map propCols).flatten := by
        intro he
        exact hdisj (by simp [propCols, hpr]) he
      rw [toDynamoGo] at h
      revert h
      cases hv : Obj.get model k
      case undef =>
        intro h
        exact toDynamo_get_not_col rest model item0 out k hkrest h
      case date ms =>
        intro h
        simp only [hpr] at h
        rw [toDynamo_get_not_col rest model _ out k hkrest h, Obj.get_set_self]
      all_goals
        intro h
      all_goals
        simp only [hpr] at h
      all_goals
        rw [toDynamo_get_not_col rest model _ out k hkrest h, Obj.get_set_self]
    · have hkin : k ∈ (rest.map propCols).flatten := by
        apply List.mem_flatten.mpr
        exact ⟨propCols (k, prop), List.mem_map_of_mem propCols hmem2,
          by simp [propCols, hpr]⟩
      have hkhd : k ∉ propCols (k0, p0) := fun he => hdisj he hkin
      rw [toDynamoGo] at h
      revert h
      cases hv0 : Obj.get model k0
      case undef =>
        intro h
        exact toDynamo_get_scalar rest model item0 out k prop
          (List.nodup_append.mp hnd).2.1 hmem2 hpr h
      all_goals
        cases hpr0 : p0.ref
      all_goals
        simp only []
      all_goals
        intro h
      -- relation head: the join fold writes only the head's columns
      all_goals
        first
        | (cases hj : (p0.join.foldlM (fun it kv =>
              (JsVal.getMember _ kv.2).map (fun fv => Obj.set it kv.1 fv))
              item0) with
           | error e =>
             rw [hj] at h
             cases h
           | ok it2 =>
             rw [hj] at h
             have hkj : k ∉ p0.join.map (·.1) := by
               intro he
               exact hkhd (by simp [propCols, hpr0, he])
             rw [toDynamo_get_scalar rest model it2 out k prop
               (List.nodup_append.mp hnd).2.1 hmem2 hpr h]
             have hpres := joinFold_get p0.join _ item0 it2 k hkj hj
             cases hv : Obj.get model k <;> simp [hpres])
        | (have hk0k : k0 ≠ k := by
             intro he
             exact hkhd (by simp [propCols, hpr0, he])
           rw [toDynamo_get_scalar rest model _ out k prop
             (List.nodup_append.mp hnd).2.1 hmem2 hpr h]
           have hpres : ∀ v : JsVal,
               Obj.get (Obj.set item0 k0 v) k = Obj.get item0 k :=
             fun v => Obj.get_set_other item0 k0 k v hk0k
           cases hv : Obj.get model k <;> simp [hpres])

end Dynorm

namespace Dynorm

theorem toDynamo_get_ref :
    ∀ (props : List (String × PropDesc)) (model item0 out : Obj)
      (k : String) (prop : PropDesc) (c f : String),
      ((props.map propCols).flatten).Nodup →
      (k, prop) ∈ props → prop.ref.isSome = true → prop.join = [(c, f)] →
      toDynamoGo model props item0 = .ok out →
      (Obj.get model k = .undef → Obj.get out c = Obj.get item0 c) ∧
      (∀ fs, Obj.get model k = .obj fs → Obj.get out c = Obj.get fs f)
  | [], _, _, _, _, _, _, _, _, hmem, _, _, _ => absurd hmem (List.not_mem_nil _)
  | (k0, p0) :: rest, model, item0, out, k, prop, c, f, hnd, hmem, href,
      hjoin, h => by
    rw [List.map_cons, List.flatten_cons] at hnd
    have hdisj := (List.nodup_append.mp hnd).2.2
    have hcself : c ∈ propCols (k, prop) := by
      obtain ⟨rn, hpr⟩ := Option.isSome_iff_exists.mp href
      simp [propCols, hpr, hjoin]
    rcases List.mem_cons.mp hmem with heq | hmem2
    · injection heq with h1 h2
      subst h1
      subst h2
      obtain ⟨rn, hpr⟩ := Option.isSome_iff_exists.mp href
      have hcrest : c ∉ (rest.map propCols).flatten := fun he => hdisj hcself he
      constructor
      · intro hmk
        rw [toDynamoGo, hmk] at h
        exact toDynamo_get_not_col rest model item0 out c hcrest h
      · intro fs hmk
        rw [toDynamoGo, hmk] at h
        simp only [hpr, hjoin] at h
        rw [joinFold_single c f fs item0] at h
        rw [toDynamo_get_not_col rest model _ out c hcrest h, Obj.get_set_self]
    · have hcin : c ∈ (rest.map propCols).flatten := by
        apply List.mem_flatten.mpr
        exact ⟨propCols (k, prop), List.mem_map_of_mem propCols hmem2, hcself⟩
      have hchd : c ∉ propCols (k0, p0) := fun he => hdisj he hcin
      have ihnd := (List.nodup_append.mp hnd).2.1
      rw [toDynamoGo] at h
      revert h
      cases hv0 : Obj.get model k0
      case undef =>
        intro h
        exact toDynamo_get_ref rest model item0 out k prop c f ihnd hmem2
          href hjoin h
      all_goals
        cases hpr0 : p0.ref
      all_goals
        simp only []
      all_goals
        intro h
      all_goals
        first
        | (cases hj : (p0.join.foldlM (fun it kv =>
              (JsVal.getMember _ kv.2).map (fun fv => Obj.set it kv.1 fv))
              item0) with
           | error e =>
             rw [hj] at h
             cases h
           | ok it2 =>
             rw [hj] at h
             have hcj : c ∉ p0.join.map (·.1) := by
               intro he
               exact hchd (by simp [propCols, hpr0, he])
             have hpres := joinFold_get p0.join _ item0 it2 c hcj hj
             have ih := toDynamo_get_ref rest model it2 out k prop c f ihnd
               hmem2 href hjoin h
             exact ⟨fun hmk => (ih.1 hmk).trans hpres,
               fun fs hmk => ih.2 fs hmk⟩)
        | (have hk0c : k0 ≠ c := by
             intro he
             exact hchd (by simp [propCols, hpr0, he])
           have hpres : ∀ v : JsVal,
               Obj.get (Obj.set item0 k0 v) c = Obj.get item0 c :=
             fun v => Obj.get_set_other item0 k0 c v hk0c
           have ih := toDynamo_get_ref rest model _ out k prop c f ihnd
             hmem2 href hjoin h
           exact ⟨fun hmk => (ih.1 hmk).trans (hpres _),
             fun fs hmk => ih.2 fs hmk⟩)

end Dynorm

namespace Dynorm

/-- C4: restricted to single-pair joins and supported shapes, the record
round-trip holds pointwise: `toDynamo (parseDynamo r)` succeeds and agrees
with `r` on every column read. -/
theorem roundtrip_single_pair_join
    (s : SchemaM) (r : Obj)
    (hnames : (s.properties.map (fun kp => kp.1)).Nodup)
    (hcols : s.columns.Nodup)
    (hjoin1 : ∀ kp ∈ s.properties, kp.2.ref.isSome = true →
      ∃ c f, kp.2.join = [(c, f)])
    (hsep : ∀ kp ∈ s.properties, kp.2.ref.isSome = true →
      kp.1 ∉ s.columns)
    (hdom : ∀ x ∈ Obj.keys r, x ∈ s.columns)
    (hfk : ∀ kp ∈ s.properties, kp.2.ref.isSome = true → ∀ c f,
      kp.2.join = [(c, f)] →
      Obj.get r c = .undef ∨ truthy (Obj.get r c) = true)
    (hdate : ∀ kp ∈ s.properties, kp.2.ref = none →
      (kp.2.format == some "date-time" || kp.2.format == some "date") = true →
      Obj.get r kp.1 = .undef ∨ ∃ m, Obj.get r kp.1 = .num m)
    (hscalar : ∀ kp ∈ s.properties, kp.2.ref = none →
      (kp.2.format == some "date-time" || kp.2.format == some "date") = false →
      ∀ ms : Int, Obj.get r kp.1 ≠ .date ms) :
    ∃ out, s.toDynamo (s.parseDynamo r) = .ok out ∧
      ∀ x, Obj.get out x = Obj.get r x := by
  have htu : truthy JsVal.undef = false := rfl
  have hundefCol : ∀ y, y ∉ s.columns → Obj.get r y = .undef := by
    intro y hy
    exact Obj.get_eq_undef_of_not_mem r y (fun hk => hy (hdom y hk))
  have hmodel : ∀ kp ∈ s.properties, kp.2.ref.isSome = true →
      Obj.get (s.parseDynamo r) kp.1 = .undef ∨
      ∃ fs, Obj.get (s.parseDynamo r) kp.1 = .obj fs := by
    intro kp hmem href
    obtain ⟨k, p⟩ := kp
    obtain ⟨rn, hpr⟩ := Option.isSome_iff_exists.mp href
    have hrk : Obj.get r k = .undef := hundefCol k (hsep (k, p) hmem href)
    obtain ⟨c, f, hje⟩ := hjoin1 (k, p) hmem href
    have hm : Obj.get (s.parseDynamo r) k =
        parseContrib r k p (Obj.get [] k) :=
      parseDynamo_get_name s.properties r [] k p hnames hmem
    rw [hm, parseContrib.eq_def, hpr, hrk, hje]
    simp only [htu, Bool.false_eq_true, if_false]
    cases h3 : truthy (Obj.get r c)
    · exact Or.inl rfl
    · exact Or.inr ⟨_, rfl⟩
  obtain ⟨out, hout⟩ := toDynamo_ok s.properties (s.parseDynamo r) [] hmodel
  refine ⟨out, hout, ?_⟩
  intro x
  by_cases hx : x ∈ s.columns
  · obtain ⟨l, hl, hxl⟩ := List.mem_flatten.mp hx
    obtain ⟨kp, hkp, hlp⟩ := List.mem_map.mp hl
    obtain ⟨k, p⟩ := kp
    subst hlp
    cases hpr : p.ref with
    | none =>
      have hxk : x = k := by simpa [propCols, hpr] using hxl
      subst hxk
      have hm : Obj.get (s.parseDynamo r) x =
          parseContrib r x p (Obj.get [] x) :=
        parseDynamo_get_name s.properties r [] x p hnames hkp
      have hT := toDynamo_get_scalar s.properties (s.parseDynamo r) [] out x p
        hcols hkp hpr hout
      rw [hT, hm, parseContrib.eq_def, hpr]
      cases hf : (p.format == some "date-time" || p.format == some "date") with
      | true =>
        rcases hdate (x, p) hkp hpr hf with h0 | ⟨m, h0⟩
        · rw [h0]
          rfl
        · rw [h0]
          rfl
      | false =>
        cases hv : Obj.get r x
        all_goals first
          | rfl
          | exact absurd hv (hscalar (x, p) hkp hpr hf _)
    | some rn =>
      have href : p.ref.isSome = true := by rw [hpr]; rfl
      obtain ⟨c, f, hje⟩ := hjoin1 (k, p) hkp href
      have hxc : x = c := by
        have h1 : x ∈ p.join.map (fun q => q.1) := by
          simpa [propCols, hpr] using hxl
        rw [hje] at h1
        simpa using h1
      subst hxc
      have hT := toDynamo_get_ref s.properties (s.parseDynamo r) [] out k p x f
        hcols hkp href hje hout
      have hrk : Obj.get r k = .undef := hundefCol k (hsep (k, p) hkp href)
      have hm : Obj.get (s.parseDynamo r) k =
          parseContrib r k p (Obj.get [] k) :=
        parseDynamo_get_name s.properties r [] k p hnames hkp
      rw [parseContrib.eq_def, hpr, hrk, hje] at hm
      simp only [htu, Bool.false_eq_true, if_false] at hm
      rcases hfk (k, p) hkp href x f hje with h0 | h0
      · rw [h0] at hm
        simp only [htu, Bool.false_eq_true, if_false] at hm
        rw [hT.1 hm, h0]
        rfl
      · simp only [h0, if_true] at hm
        rw [hT.2 [(f, Obj.get r x)] hm]
        simp [Obj.get]
  · rw [toDynamo_get_not_col s.properties (s.parseDynamo r) [] out x hx hout,
      hundefCol x hx]
    rfl

end Dynorm

namespace Dynorm

/-- C4 counterexample: with the two-pair join of `demoRelS`, `parseDynamo`
rebuilds the relation stub from the first join pair only, so the
round-trip drops the second foreign-key column `ownerRegion`. -/
theorem roundtrip_multi_pair_join_counterexample :
    ∃ out, demoRelS.toDynamo (demoRelS.parseDynamo demoRelRecord) = .ok out ∧
      Obj.get out "ownerRegion" ≠ Obj.get demoRelRecord "ownerRegion" := by
  refine ⟨[("ownerId", .num 1), ("ownerRegion", .undef)], rfl, ?_⟩
  intro h
  exact JsVal.noConfusion h

/-- C4 witness: the amended round-trip at a concrete schema and record. -/
theorem roundtrip_single_pair_join_witness :
    ∃ out, demoRelS1.toDynamo (demoRelS1.parseDynamo demoRelRecord1) = .ok out ∧
      ∀ x, Obj.get out x = Obj.get demoRelRecord1 x :=
  roundtrip_single_pair_join demoRelS1 demoRelRecord1
    (by decide) (by decide)
    (by intro kp hmem href
        simp only [demoRelS1, List.mem_cons, List.not_mem_nil, or_false] at hmem
        rcases hmem with rfl | rfl | rfl
        · exact ⟨"ownerId", "id", rfl⟩
        · exact absurd href (by decide)
        · exact absurd href (by decide))
    (by intro kp hmem href
        simp only [demoRelS1, List.mem_cons, List.not_mem_nil, or_false] at hmem
        rcases hmem with rfl | rfl | rfl
        · decide
        · exact absurd href (by decide)
        · exact absurd href (by decide))
    (by decide)
    (by intro kp hmem href c f hje
        simp only [demoRelS1, List.mem_cons, List.not_mem_nil, or_false] at hmem
        rcases hmem with rfl | rfl | rfl
        · injection hje with h1 h2
          injection h1 with h3 h4
          subst h3
          exact Or.inr rfl
        · exact absurd href (by decide)
        · exact absurd href (by decide))
    (by intro kp hmem hrn hf
        simp only [demoRelS1, List.mem_cons, List.not_mem_nil, or_false] at hmem
        rcases hmem with rfl | rfl | rfl
        · exact absurd hrn (by decide)
        · exact absurd hf (by decide)
        · exact Or.inr ⟨5, rfl⟩)
    (by intro kp hmem hrn hf ms h
        simp only [demoRelS1, List.mem_cons, List.not_mem_nil, or_false] at hmem
        rcases hmem with rfl | rfl | rfl
        · exact absurd hrn (by decide)
        · exact JsVal.noConfusion h
        · exact absurd hf (by decide))

end Dynorm
